import Mathlib

/-! # getSearchData (popup/js/model/searchData.js)

A shallow embedding of `getSearchData`: the incremental history fetch with its
local cache, the id-dedup of fetched and cached history, the mock-data
fallback, the merge of history into bookmarks and tabs, and the final index
assignment.

Conventions of the embedding.

* A JavaScript object used as a hash map (`historyMap`, `idMap`) is a finite
  map from strings. Its keys are URLs and provider ids; none of them is a
  name inherited from `Object.prototype`.
* Objects are values: the converters build a fresh object for every record,
  so no object is shared between two positions.
* The providers (`getBrowserTabs`, `getBrowserBookmarks`, `getBrowserHistory`)
  and the converters live in `helper/browserApi.js`; they are inputs of the
  model. A provider call is taken to resolve.
* `Date.now()` is read as one instant `now` during a call.
-/

namespace SearchDataModel

/-! ## Data model -/

/-- Property values read or written by the pipeline: numbers and strings. -/
inductive Val where
  | num (n : Int)
  | str (s : String)
  deriving DecidableEq, Repr

/-- Own properties of an object as an association list. The first entry for a
name is the current value of the property; writing a property puts a new entry
in front. -/
abbrev Props := List (String × Val)

/-- Property read `o[name]`; `none` is `undefined`. -/
def getProp : Props → String → Option Val
  | [], _ => none
  | (k, v) :: rest, name => if k = name then some v else getProp rest name

/-- Modelled from the spec: the normalized record built by the converters of
`helper/browserApi.js`, which is not part of the sources. The spec (section 3)
gives it the required identity field `originalUrl`; every other property
(`title`, `lastVisitTime`, `index`, ...) is optional and kept in `props`. -/
structure Record where
  originalUrl : String
  props : Props
  deriving DecidableEq, Repr

/-- Property read `r[name]` on a record. -/
def Record.get (r : Record) (name : String) : Option Val :=
  if name = "originalUrl" then some (Val.str r.originalUrl) else getProp r.props name

/-- Assignment `r.index = i`, also the shorthand property of `{ ...r, index }`. -/
def withIndex (r : Record) (i : Nat) : Record :=
  { r with props := ("index", Val.num i) :: r.props }

/-- Object spread `{ ...base, ...over }`: the properties of `over` win. -/
def spread (base over : Record) : Record :=
  { originalUrl := over.originalUrl, props := over.props ++ base.props }

/-- A raw history item as the history provider returns it and as the cache
stores it. The code reads `id`, the identifier the provider assigns, and
`lastVisitTime`, which may be missing; `url` and `title` stand for the rest of
the item. -/
structure HistoryItem where
  id : String
  lastVisitTime : Option Int
  url : String
  title : String
  deriving DecidableEq, Repr

/-- Raw tab or bookmark of the provider, handed to its converter unread. -/
abbrev RawItem := Props

/-- The object returned by `getSearchData`. -/
structure SearchData where
  tabs : List Record
  bookmarks : List Record
  history : List Record
  deriving DecidableEq, Repr

/-! ## Cross-source merge and index (lines 113-164) -/

/-- The lookup built by `result.history.reduce(...)`: every history record is
stored under its `originalUrl` as `{ ...item, index }`. A later record with the
same URL is put in front, so it is the one a read finds. -/
def historyMap (history : List Record) : List (String × Record) :=
  history.enum.foldl (fun obj p => (p.2.originalUrl, withIndex p.2 p.1) :: obj) []

/-- Read `historyMap[url]`. -/
def lookupUrl : List (String × Record) → String → Option Record
  | [], _ => none
  | (k, v) :: rest, url => if k = url then some v else lookupUrl rest url

/-- The callback of `result.bookmarks.map` and `result.tabs.map`: its value. -/
def mergeOne (hm : List (String × Record)) (el : Record) : Record :=
  match lookupUrl hm el.originalUrl with
  | some h => spread h el
  | none => el

/-- The callback of `result.bookmarks.map` and `result.tabs.map`: what it
pushes on `historyToDelete`, namely `historyMap[el.originalUrl].index`. -/
def pushed (hm : List (String × Record)) (els : List Record) : List (Option Val) :=
  els.filterMap (fun el => (lookupUrl hm el.originalUrl).map (fun h => h.get "index"))

/-- `delete result.history[index]` for every pushed index, then
`filter((el) => el)`: the positions named in `historyToDelete` disappear. -/
def removeMerged (history : List Record) (historyToDelete : List (Option Val)) : List Record :=
  (history.enum.filter
    (fun p => decide (some (Val.num (p.1 : Int)) ∉ historyToDelete))).map Prod.snd

/-- The three loops `result.xs[i].index = i`. -/
def addIndex (l : List Record) : List Record :=
  l.enum.map (fun p => withIndex p.2 p.1)

/-- Lines 113-164 of `getSearchData`, on the three gathered sequences. -/
def mergeAndIndex (tabs bookmarks history : List Record) : SearchData :=
  let hm := historyMap history
  let historyToDelete := pushed hm bookmarks ++ pushed hm tabs
  { tabs := addIndex (tabs.map (mergeOne hm))
    bookmarks := addIndex (bookmarks.map (mergeOne hm))
    history := addIndex (removeMerged history historyToDelete) }

/-! ## History fetch with cache (lines 47-92) -/

/-- A JavaScript number that is an integer or `NaN` (`none`). A missing
`lastVisitTime` (`undefined`) becomes `NaN` in arithmetic and comparisons. -/
abbrev JsNum := Option Int

/-- Numeric `a > b`; false when either side is `NaN`. -/
def jsGt (a b : JsNum) : Bool :=
  match a, b with
  | some x, some y => decide (x > y)
  | _, _ => false

/-- Numeric `a + 1`. -/
def jsSucc (a : JsNum) : JsNum := a.map (· + 1)

/-- Exceptions thrown while the stored snapshot is read. -/
inductive JsError where
  | typeError
  | syntaxError
  deriving DecidableEq, Repr

/-- The text stored under the key `history`: no entry, text that `JSON.parse`
rejects, or the serialized list written by an earlier call. -/
inductive StoredHistory where
  | absent
  | malformed
  | items (l : List HistoryItem)
  deriving DecidableEq, Repr

/-- The two `localStorage` keys of the cache. `historyLastFetched` is only
ever written as `Date.now()`, so `parseInt` gives that integer back. -/
structure Storage where
  historyLastFetched : Option Int
  history : StoredHistory
  deriving DecidableEq, Repr

/-- `JSON.parse(localStorage.getItem('history'))` followed by the read
`historyC[0]`: a missing entry parses to `null`, on which the read throws a
TypeError; rejected text throws a SyntaxError. -/
def parseStoredHistory : StoredHistory → Except JsError (List HistoryItem)
  | StoredHistory.absent => Except.error JsError.typeError
  | StoredHistory.malformed => Except.error JsError.syntaxError
  | StoredHistory.items l => Except.ok l

/-- Milliseconds of a day, `1000 * 60 * 60 * 24`. -/
def msPerDay : Int := 1000 * 60 * 60 * 24

/-- Lines 62-67: `lastHistoryItem` after the loop over `historyC`. -/
def lastHistoryItem (historyC : List HistoryItem) (startTime : Int) : JsNum :=
  let first : JsNum :=
    match historyC.head? with
    | some item => jsSucc item.lastVisitTime
    | none => some startTime
  historyC.foldl
    (fun acc item => if jsGt item.lastVisitTime acc then jsSucc item.lastVisitTime else acc)
    first

/-- Lines 52-70: the start time handed to the history provider and the cached
items `historyC` that enter the merge. -/
def fetchWindow (now historyDaysAgo : Int) (storage : Storage) :
    Except JsError (JsNum × List HistoryItem) :=
  let startTime := now - msPerDay * historyDaysAgo
  let lastFetch := storage.historyLastFetched.getD 0
  if lastFetch ≠ 0 then
    if lastFetch < now - msPerDay then
      Except.ok (some startTime, [])
    else if lastFetch > startTime then
      match parseStoredHistory storage.history with
      | Except.error e => Except.error e
      | Except.ok historyC => Except.ok (lastHistoryItem historyC startTime, historyC)
    else Except.ok (some startTime, [])
  else Except.ok (some startTime, [])

/-- Lines 77-80: the body of the loop over `historyFromApi.concat(historyC)`.
The state is `browserHistory` and the ids set to `true` in `idMap`. -/
def mergeStep (st : List HistoryItem × List String) (item : HistoryItem) :
    List HistoryItem × List String :=
  if item.id ∈ st.2 then st else (st.1 ++ [item], item.id :: st.2)

/-- Lines 74-81: `browserHistory` after the loop, both starting empty. -/
def mergeHistories (items : List HistoryItem) : List HistoryItem :=
  (items.foldl mergeStep ([], [])).1

/-! ## The whole call -/

/-- Capabilities of `browserApi`. -/
structure BrowserApi where
  tabs : Bool
  bookmarks : Bool
  history : Bool
  deriving DecidableEq, Repr

/-- The options `ext.opts` that `getSearchData` reads. -/
structure Opts where
  enableTabs : Bool
  enableBookmarks : Bool
  enableHistory : Bool
  historyDaysAgo : Int
  historyMaxItems : Int
  debug : Bool
  deriving DecidableEq, Repr

/-- The document `./mockData/chrome.json`. -/
structure MockData where
  tabs : List RawItem
  bookmarks : List RawItem
  history : List HistoryItem
  deriving DecidableEq, Repr

/-- Everything a call of `getSearchData` reads from its surroundings. `mock`
is `none` when fetching or parsing the mock document fails. -/
structure Env where
  api : BrowserApi
  opts : Opts
  now : Int
  storage : Storage
  browserTabs : List RawItem
  browserBookmarks : List RawItem
  getBrowserHistory : JsNum → Int → List HistoryItem
  convertBrowserTabs : List RawItem → List Record
  convertBrowserBookmarks : List RawItem → List Record
  convertBrowserHistory : List HistoryItem → List Record
  mock : Option MockData

/-- What one run of the history block (lines 47-92) does. -/
structure HistoryFetch where
  startTime : JsNum
  historyC : List HistoryItem
  historyFromApi : List HistoryItem
  browserHistory : List HistoryItem
  storage : Storage
  deriving DecidableEq, Repr

/-- Lines 52-87: choose the window, call the provider, merge, update the cache. -/
def fetchHistory (env : Env) : Except JsError HistoryFetch :=
  match fetchWindow env.now env.opts.historyDaysAgo env.storage with
  | Except.error e => Except.error e
  | Except.ok (startTime, historyC) =>
    let historyFromApi := env.getBrowserHistory startTime env.opts.historyMaxItems
    let browserHistory := mergeHistories (historyFromApi ++ historyC)
    Except.ok
      { startTime := startTime
        historyC := historyC
        historyFromApi := historyFromApi
        browserHistory := browserHistory
        storage := { historyLastFetched := some env.now
                     history := StoredHistory.items browserHistory } }

/-- The state before the merge: the three sequences and `localStorage`. -/
structure Gathered where
  tabs : List Record
  bookmarks : List Record
  history : List Record
  storage : Storage
  deriving DecidableEq, Repr

/-- Lines 25-92: the three live sources, each behind its capability and its
enable flag. -/
def gatherLive (env : Env) : Except JsError Gathered :=
  let tabs := if env.api.tabs && env.opts.enableTabs
    then env.convertBrowserTabs env.browserTabs else []
  let bookmarks := if env.api.bookmarks && env.opts.enableBookmarks
    then env.convertBrowserBookmarks env.browserBookmarks else []
  if env.api.history && env.opts.enableHistory then
    match fetchHistory env with
    | Except.error e => Except.error e
    | Except.ok f =>
      Except.ok { tabs := tabs, bookmarks := bookmarks
                  history := env.convertBrowserHistory f.browserHistory
                  storage := f.storage }
  else
    Except.ok { tabs := tabs, bookmarks := bookmarks, history := [], storage := env.storage }

/-- Lines 96-111: the mock-data fallback. A failed load leaves the gathered
sequences as they are. -/
def useMockData (env : Env) (g : Gathered) : Gathered :=
  if !env.api.bookmarks || !env.api.history then
    match env.mock with
    | none => g
    | some chromeMockData =>
      { tabs := env.convertBrowserTabs chromeMockData.tabs
        bookmarks := if env.opts.enableBookmarks
          then env.convertBrowserBookmarks chromeMockData.bookmarks else g.bookmarks
        history := if env.opts.enableBookmarks
          then env.convertBrowserHistory chromeMockData.history else g.history
        storage := g.storage }
  else g

/-- The function `getSearchData`: the returned dataset together with
`localStorage` after the call, or the exception that escapes. -/
def getSearchData (env : Env) : Except JsError (SearchData × Storage) :=
  match gatherLive env with
  | Except.error e => Except.error e
  | Except.ok live =>
    let g := useMockData env live
    Except.ok (mergeAndIndex g.tabs g.bookmarks g.history, g.storage)

/-! ## Vocabulary of the properties -/

/-- The `index` values of a sequence, in sequence order. -/
def indexValues (l : List Record) : List (Option Val) :=
  l.map (fun r => r.get "index")

/-- The values `0, 1, ..., n - 1` as `index` properties. -/
def positions (n : Nat) : List (Option Val) :=
  (List.range n).map (fun (i : Nat) => some (Val.num (Int.ofNat i)))

/-- Every sequence of the dataset carries `index = position`. -/
def Contiguous (d : SearchData) : Prop :=
  indexValues d.tabs = positions d.tabs.length ∧
  indexValues d.bookmarks = positions d.bookmarks.length ∧
  indexValues d.history = positions d.history.length

/-- Object spread seen on one property: the own value wins, otherwise the value
of the base. -/
def overlay (own base : Option Val) : Option Val :=
  match own with
  | some v => some v
  | none => base

/-- The history record that the lookup yields for `url`: `h` stands at position
`p` of `history`, carries `url`, and no later record does. With pairwise
distinct URLs it is the only record with that URL. -/
def MatchedAt (history : List Record) (url : String) (p : Nat) (h : Record) : Prop :=
  history[p]? = some h ∧ h.originalUrl = url ∧
    ∀ q h2, p < q → history[q]? = some h2 → h2.originalUrl ≠ url

/-- Apart from `index`, every field of `out` is the value of `el` when `el` has
the field and the value of `h` otherwise. -/
def Overlaid (out el h : Record) : Prop :=
  ∀ name, name ≠ "index" → out.get name = overlay (el.get name) (h.get name)

/-- The records agree on every field other than `index`. -/
def SameUpToIndex (a b : Record) : Prop :=
  ∀ name, name ≠ "index" → a.get name = b.get name

/-- The record `r` has the `originalUrl` of `el` and every field that `el` has,
apart from `index`, with the value of `el`. -/
def KeepsFields (r el : Record) : Prop :=
  r.originalUrl = el.originalUrl ∧
  ∀ name, name ≠ "index" → ∀ v, el.get name = some v → r.get name = some v

/-- The `originalUrl` values of a sequence, in sequence order. -/
def urls (l : List Record) : List String :=
  l.map (fun r => r.originalUrl)

/-- Position `p` of `history` is matched by `els`: it is the last position of
`history` carrying its `originalUrl`, and that URL is the `originalUrl` of a
record of `els`. -/
def isMatchedPosition (history els : List Record) (p : Nat) : Bool :=
  match history[p]? with
  | some h =>
    decide (h.originalUrl ∈ urls els) &&
      (history.drop (p + 1)).all (fun y => decide (y.originalUrl ≠ h.originalUrl))
  | none => false

/-- The matched positions of `history`, in increasing order. -/
def matchedPositions (history els : List Record) : List Nat :=
  (List.range history.length).filter (isMatchedPosition history els)

/-- The list `history` with the positions `ps` deleted, the other records in
their order. -/
def deletePositions (history : List Record) (ps : List Nat) : List Record :=
  (history.enum.filter (fun (p : Nat × Record) => decide (p.1 ∉ ps))).map Prod.snd

/-- The `id` values of a list of history items, in list order. -/
def ids (l : List HistoryItem) : List String :=
  l.map (fun x => x.id)

/-- The subsequence of `l` that keeps the record at a position iff no record at
an earlier position of `l` has the same `id` (the wording of the fetcher's
step 6, not the loop of the code). -/
def keepFirstOccurrences (l : List HistoryItem) : List HistoryItem :=
  (l.enum.filter
    (fun (p : Nat × HistoryItem) => decide (∀ y ∈ l.take p.1, y.id ≠ p.2.id))).map Prod.snd

/-- The start time that a run of the history block hands to the provider. -/
def requestedFrom (env : Env) : Option JsNum :=
  match fetchHistory env with
  | Except.ok f => some f.startTime
  | Except.error _ => none

/-- The history block completes, asks the provider from the window start
`now - historyDaysAgo * 24h`, and merges the fetched records only. -/
def FetchesFromWindowStart (env : Env) : Prop :=
  ∃ f, fetchHistory env = Except.ok f ∧
    f.startTime = some (env.now - msPerDay * env.opts.historyDaysAgo) ∧
    f.historyC = [] ∧
    f.historyFromApi = env.getBrowserHistory
      (some (env.now - msPerDay * env.opts.historyDaysAgo)) env.opts.historyMaxItems ∧
    f.browserHistory = mergeHistories f.historyFromApi

/-! ## Sample inputs -/

/-- The record a sample history converter makes of one item. -/
def sampleRecord (h : HistoryItem) : Record :=
  { originalUrl := h.url
    props := ("title", Val.str h.title) ::
      (match h.lastVisitTime with
       | some t => [("lastVisitTime", Val.num t)]
       | none => []) }

/-- A sample history converter: one record per item. -/
def sampleConvertHistory (l : List HistoryItem) : List Record :=
  l.map sampleRecord

/-- A sample converter for tabs and bookmarks: one record per raw item. -/
def sampleConvert (l : List RawItem) : List Record :=
  l.map (fun raw =>
    { originalUrl := match getProp raw "url" with
        | some (Val.str u) => u
        | _ => ""
      props := raw })

/-- A sample environment: all capabilities, all sources enabled, an empty
cache, one tab, two bookmarks and three history items, one of them bookmarked
and open in the tab. -/
def sampleEnv : Env :=
  { api := { tabs := true, bookmarks := true, history := true }
    opts := { enableTabs := true, enableBookmarks := true, enableHistory := true
              historyDaysAgo := 14, historyMaxItems := 1024, debug := false }
    now := 2000000000
    storage := { historyLastFetched := none, history := StoredHistory.absent }
    browserTabs := [[("url", Val.str "https://b.example"), ("index", Val.num 7)]]
    browserBookmarks :=
      [[("url", Val.str "https://x.example"), ("title", Val.str "X")],
       [("url", Val.str "https://b.example"), ("title", Val.str "B")]]
    getBrowserHistory := fun _ _ =>
      [{ id := "1", lastVisitTime := some 300, url := "https://a.example", title := "a" },
       { id := "2", lastVisitTime := some 200, url := "https://b.example", title := "b" },
       { id := "3", lastVisitTime := some 100, url := "https://c.example", title := "c" }]
    convertBrowserTabs := sampleConvert
    convertBrowserBookmarks := sampleConvert
    convertBrowserHistory := sampleConvertHistory
    mock := none }

/-- The bookmark of the merge-precedence example. -/
def bookmarkA : Record := { originalUrl := "a", props := [("title", Val.str "T")] }

/-- The history record of the merge-precedence example. -/
def historyA : Record :=
  { originalUrl := "a", props := [("lastVisitTime", Val.num 100), ("title", Val.str "Old")] }

/-- An earlier history record with the URL of `historyA`. -/
def historyEarlierA : Record :=
  { originalUrl := "a", props := [("lastVisitTime", Val.num 50), ("title", Val.str "Older")] }

/-- An open tab with the URL of `bookmarkA`. -/
def tabA : Record := { originalUrl := "a", props := [("title", Val.str "Tab")] }

/-- Sample history item with the given id and visit time. -/
def sampleItem (id : String) (t : Int) (title : String) : HistoryItem :=
  { id := id, lastVisitTime := some t, url := "https://" ++ id ++ ".example", title := title }

/-- The sample environment two hours after a fetch that cached the given items,
with a window of one day. -/
def cachedEnv (cached : List HistoryItem) : Env :=
  { sampleEnv with
    opts := { sampleEnv.opts with historyDaysAgo := 1 }
    storage :=
      { historyLastFetched := some (sampleEnv.now - 2 * 60 * 60 * 1000)
        history := StoredHistory.items cached } }

/-- The sample environment thirty hours after the last fetch, with a window of
fourteen days and a stored snapshot that does not parse. -/
def staleEnv : Env :=
  { sampleEnv with
    storage :=
      { historyLastFetched := some (sampleEnv.now - 30 * 60 * 60 * 1000)
        history := StoredHistory.malformed } }

/-- The sample environment with a cache and the history source switched off. -/
def historyOffEnv : Env :=
  { cachedEnv [sampleItem "2" 150 "cached"] with
    opts := { sampleEnv.opts with enableHistory := false } }

/-- The sample environment two hours after the last fetch, with a window of one
day (the incremental branch) and a stored snapshot that does not parse. -/
def malformedCacheEnv : Env :=
  { cachedEnv [] with
    storage :=
      { historyLastFetched := some (sampleEnv.now - 2 * 60 * 60 * 1000)
        history := StoredHistory.malformed } }

/-- The same as `malformedCacheEnv`, with no entry under the key `history`. -/
def absentCacheEnv : Env :=
  { cachedEnv [] with
    storage :=
      { historyLastFetched := some (sampleEnv.now - 2 * 60 * 60 * 1000)
        history := StoredHistory.absent } }

/-- A sample mock document with one tab, one bookmark and one history item. -/
def sampleMock : MockData :=
  { tabs := [[("url", Val.str "https://mock-tab.example")]]
    bookmarks := [[("url", Val.str "https://mock-bookmark.example")]]
    history := [sampleItem "mock" 10 "mock"] }

/-- No provider capability at all, the mock document loads; of the three
sources only bookmarks is enabled. -/
def mockOnlyBookmarksEnv : Env :=
  { sampleEnv with
    api := { tabs := false, bookmarks := false, history := false }
    opts := { sampleEnv.opts with enableTabs := false, enableHistory := false }
    mock := some sampleMock }

/-- No provider capability at all, the mock document loads; bookmarks are
disabled, tabs and history are enabled. -/
def mockNoBookmarksEnv : Env :=
  { sampleEnv with
    api := { tabs := false, bookmarks := false, history := false }
    opts := { sampleEnv.opts with enableBookmarks := false }
    mock := some sampleMock }

/-- No provider capability at all, the mock document loads, all sources are
enabled. -/
def mockAllEnv : Env :=
  { sampleEnv with
    api := { tabs := false, bookmarks := false, history := false }
    mock := some sampleMock }

/-- The tabs and bookmarks capabilities are present, the history capability is
missing, and the mock document loads. -/
def historyMissingEnv : Env :=
  { sampleEnv with
    api := { tabs := true, bookmarks := true, history := false }
    mock := some sampleMock }

/-- The bookmarks capability is missing and the mock document fails to load. -/
def mockFailsEnv : Env :=
  { sampleEnv with
    api := { tabs := true, bookmarks := false, history := true }
    mock := none }

/-- A cached item without a `lastVisitTime`. -/
def unvisitedItem : HistoryItem :=
  { id := "0", lastVisitTime := none, url := "https://0.example", title := "cached" }

/-! ## Properties of the index assignment -/

theorem get_withIndex (r : Record) (i : Nat) :
    (withIndex r i).get "index" = some (Val.num i) := by
  simp [withIndex, Record.get, getProp]

theorem length_addIndex (l : List Record) : (addIndex l).length = l.length := by
  simp [addIndex, List.enum]

theorem getElem?_addIndex (l : List Record) (n : Nat) :
    (addIndex l)[n]? = (l[n]?).map (fun r => withIndex r n) := by
  simp [addIndex, List.getElem?_map, List.getElem?_enum]
  cases l[n]? <;> simp

theorem indexValues_addIndex (l : List Record) :
    indexValues (addIndex l) = positions (addIndex l).length := by
  rw [length_addIndex]
  apply List.ext_getElem?
  intro n
  simp only [indexValues, positions, List.getElem?_map, getElem?_addIndex]
  by_cases h : n < l.length
  · simp [List.getElem?_eq_getElem h, get_withIndex, List.getElem?_range h]
  · have h2 : l.length ≤ n := Nat.le_of_not_lt h
    have h3 : (List.range l.length)[n]? = none :=
      List.getElem?_eq_none (by simpa using h2)
    simp [List.getElem?_eq_none h2, h3]

theorem contiguous_mergeAndIndex (tabs bookmarks history : List Record) :
    Contiguous (mergeAndIndex tabs bookmarks history) :=
  ⟨indexValues_addIndex _, indexValues_addIndex _, indexValues_addIndex _⟩

theorem getSearchData_ok (env : Env) (out : SearchData × Storage)
    (h : getSearchData env = Except.ok out) :
    ∃ live, gatherLive env = Except.ok live ∧
      out = (mergeAndIndex (useMockData env live).tabs (useMockData env live).bookmarks
              (useMockData env live).history, (useMockData env live).storage) := by
  unfold getSearchData at h
  cases hg : gatherLive env with
  | error e => rw [hg] at h; cases h
  | ok live =>
    rw [hg] at h
    injection h with h
    exact ⟨live, rfl, h.symm⟩

/-- C1 (index contiguity). In each of `tabs`, `bookmarks` and `history` of the
merged and indexed dataset the record at position i has `index` = i, for all
gathered sequences (merged records that inherit the history position and
records with an `index` of their own included); hence the same holds for
whatever `getSearchData` returns, in every environment. -/
theorem index_contiguity :
    (∀ tabs bookmarks history : List Record,
      Contiguous (mergeAndIndex tabs bookmarks history)) ∧
    (∀ (env : Env) (out : SearchData × Storage),
      getSearchData env = Except.ok out → Contiguous out.1) := by
  refine ⟨contiguous_mergeAndIndex, ?_⟩
  intro env out h
  obtain ⟨live, _, rfl⟩ := getSearchData_ok env out h
  exact contiguous_mergeAndIndex _ _ _

/-- C1 at the sample environment: the call returns, the merged tab and
bookmark and the compacted history are numbered from 0. -/
theorem index_contiguity_witness :
    (∃ out, getSearchData sampleEnv = Except.ok out ∧
      indexValues out.1.tabs = [some (Val.num 0)] ∧
      indexValues out.1.bookmarks = [some (Val.num 0), some (Val.num 1)] ∧
      indexValues out.1.history = [some (Val.num 0), some (Val.num 1)]) ∧
    (∀ out, getSearchData sampleEnv = Except.ok out → Contiguous out.1) :=
  ⟨⟨_, rfl, by decide, by decide, by decide⟩, index_contiguity.2 sampleEnv⟩

/-! ## Properties of the history lookup -/

theorem getProp_append (a b : Props) (name : String) :
    getProp (a ++ b) name = overlay (getProp a name) (getProp b name) := by
  induction a with
  | nil => simp [getProp, overlay]
  | cons e rest ih =>
    obtain ⟨k, v⟩ := e
    by_cases hk : k = name
    · simp [getProp, hk, overlay]
    · simp [getProp, hk, ih]

theorem get_withIndex_of_ne (r : Record) (i : Nat) (name : String) (h : name ≠ "index") :
    (withIndex r i).get name = r.get name := by
  have h2 : ¬ "index" = name := fun e => h e.symm
  simp [withIndex, Record.get, getProp, h2]

theorem get_spread (base over : Record) (name : String) :
    (spread base over).get name = overlay (over.get name) (base.get name) := by
  by_cases hn : name = "originalUrl"
  · simp [spread, Record.get, hn, overlay]
  · simp [spread, Record.get, hn, getProp_append]

theorem historyMap_concat (history : List Record) (x : Record) :
    historyMap (history ++ [x]) =
      (x.originalUrl, withIndex x history.length) :: historyMap history := by
  simp [historyMap, List.enum_append, List.foldl_append]

theorem lookupUrl_historyMap_some (history : List Record) (url : String) (r : Record) :
    lookupUrl (historyMap history) url = some r →
      ∃ p h, MatchedAt history url p h ∧ r = withIndex h p := by
  induction history using List.reverseRecOn generalizing r with
  | nil => intro h; simp [historyMap, lookupUrl] at h
  | append_singleton hs x ih =>
    intro h
    rw [historyMap_concat] at h
    by_cases hx : x.originalUrl = url
    · simp [lookupUrl, hx] at h
      refine ⟨hs.length, x, ⟨by simp, hx, ?_⟩, h.symm⟩
      intro q h2 hq hget
      have : (hs ++ [x]).length ≤ q := by simp; omega
      rw [List.getElem?_eq_none this] at hget
      cases hget
    · simp [lookupUrl, hx] at h
      obtain ⟨p, h0, ⟨hp, hu, hlast⟩, hr⟩ := ih r h
      have hplt : p < hs.length := by
        by_contra hc
        rw [List.getElem?_eq_none (Nat.le_of_not_lt hc)] at hp
        cases hp
      refine ⟨p, h0, ⟨?_, hu, ?_⟩, hr⟩
      · rw [List.getElem?_append_left hplt]; exact hp
      · intro q h2 hq hget
        by_cases hql : q < hs.length
        · rw [List.getElem?_append_left hql] at hget
          exact hlast q h2 hq hget
        · by_cases hqe : q = hs.length
          · subst hqe
            simp at hget
            rw [← hget]; exact hx
          · have : (hs ++ [x]).length ≤ q := by simp; omega
            rw [List.getElem?_eq_none this] at hget
            cases hget

theorem lookupUrl_historyMap_isSome (history : List Record) (url : String)
    (h : ∃ x ∈ history, x.originalUrl = url) :
    ∃ r, lookupUrl (historyMap history) url = some r := by
  induction history using List.reverseRecOn with
  | nil => simp at h
  | append_singleton hs x ih =>
    rw [historyMap_concat]
    by_cases hx : x.originalUrl = url
    · exact ⟨withIndex x hs.length, by simp [lookupUrl, hx]⟩
    · obtain ⟨y, hy, hyu⟩ := h
      have hy2 : y ∈ hs := by
        rcases List.mem_append.1 hy with hy | hy
        · exact hy
        · simp at hy; subst hy; exact absurd hyu hx
      obtain ⟨r, hr⟩ := ih ⟨y, hy2, hyu⟩
      exact ⟨r, by simp [lookupUrl, hx, hr]⟩

theorem lookupUrl_historyMap_none (history : List Record) (url : String)
    (h : ∀ x ∈ history, x.originalUrl ≠ url) :
    lookupUrl (historyMap history) url = none := by
  cases hl : lookupUrl (historyMap history) url with
  | none => rfl
  | some r =>
    obtain ⟨p, h0, ⟨hp, hu, _⟩, _⟩ := lookupUrl_historyMap_some history url r hl
    exact absurd hu (h h0 (List.getElem?_mem hp))

/-! ## Merge precedence -/


theorem getElem?_merged (hm : List (String × Record)) (els : List Record) (i : Nat) :
    (addIndex (els.map (mergeOne hm)))[i]? =
      (els[i]?).map (fun el => withIndex (mergeOne hm el) i) := by
  rw [getElem?_addIndex, List.getElem?_map]
  cases els[i]? <;> simp

theorem overlaid_mergeOne (history : List Record) (el : Record) (i : Nat)
    (h : ∃ x ∈ history, x.originalUrl = el.originalUrl) :
    ∃ p h0, MatchedAt history el.originalUrl p h0 ∧
      Overlaid (withIndex (mergeOne (historyMap history) el) i) el h0 := by
  obtain ⟨r, hr⟩ := lookupUrl_historyMap_isSome history el.originalUrl h
  obtain ⟨p, h0, hm, rfl⟩ := lookupUrl_historyMap_some history el.originalUrl r hr
  refine ⟨p, h0, hm, ?_⟩
  intro name hn
  simp only [mergeOne, hr]
  rw [get_withIndex_of_ne _ _ _ hn, get_spread, get_withIndex_of_ne _ _ _ hn]

/-- C2 (merge precedence). When the bookmark (resp. tab) `el` at position `i`
has the `originalUrl` of some history record `x`, the output record at position
`i` of `bookmarks` (resp. `tabs`) has, for every field other than `index`, the
value of `el` when `el` has the field, and otherwise the value of the matched
history record, which is the last history record with that URL. -/
theorem merge_precedence (tabs bookmarks history : List Record) (i : Nat) (el x : Record)
    (hx : x ∈ history) (hurl : el.originalUrl = x.originalUrl) :
    (bookmarks[i]? = some el →
      ∃ out p h, (mergeAndIndex tabs bookmarks history).bookmarks[i]? = some out ∧
        MatchedAt history el.originalUrl p h ∧ Overlaid out el h) ∧
    (tabs[i]? = some el →
      ∃ out p h, (mergeAndIndex tabs bookmarks history).tabs[i]? = some out ∧
        MatchedAt history el.originalUrl p h ∧ Overlaid out el h) := by
  obtain ⟨p, h0, hm, hov⟩ := overlaid_mergeOne history el i ⟨x, hx, hurl.symm⟩
  constructor
  · intro hel
    exact ⟨_, p, h0, by simp [mergeAndIndex, getElem?_merged, hel], hm, hov⟩
  · intro hel
    exact ⟨_, p, h0, by simp [mergeAndIndex, getElem?_merged, hel], hm, hov⟩

/-- C2 at the example of the specification: bookmark `a` titled "T" and history
record `a` visited at 100 and titled "Old" give title "T", lastVisitTime 100,
and an empty output history. -/
theorem merge_precedence_witness :
    (∃ out p h, (mergeAndIndex [] [bookmarkA] [historyA]).bookmarks[0]? = some out ∧
        MatchedAt [historyA] "a" p h ∧ Overlaid out bookmarkA h) ∧
    (mergeAndIndex [] [bookmarkA] [historyA]).bookmarks.map
        (fun r => (r.get "title", r.get "lastVisitTime")) =
      [(some (Val.str "T"), some (Val.num 100))] ∧
    (mergeAndIndex [] [bookmarkA] [historyA]).history = [] :=
  ⟨(merge_precedence [] [bookmarkA] [historyA] 0 bookmarkA historyA
      (by decide) (by decide)).1 (by decide), by decide, by decide⟩

/-! ## Removal of merged history -/

theorem mem_pushed (hm : List (String × Record)) (els : List Record) (v : Option Val) :
    v ∈ pushed hm els ↔
      ∃ el ∈ els, ∃ h, lookupUrl hm el.originalUrl = some h ∧ h.get "index" = v := by
  simp only [pushed, List.mem_filterMap, Option.map_eq_some']

theorem mem_removeMerged (history : List Record) (del : List (Option Val)) (r : Record) :
    r ∈ removeMerged history del ↔
      ∃ i : Nat, history[i]? = some r ∧ some (Val.num (i : Int)) ∉ del := by
  simp only [removeMerged, List.mem_map, List.mem_filter, decide_eq_true_eq]
  constructor
  · rintro ⟨⟨i, a⟩, ⟨hmem, hdel⟩, rfl⟩
    exact ⟨i, List.mk_mem_enum_iff_getElem?.1 hmem, hdel⟩
  · rintro ⟨i, hget, hdel⟩
    exact ⟨(i, r), ⟨List.mk_mem_enum_iff_getElem?.2 hget, hdel⟩, rfl⟩

theorem mem_addIndex (l : List Record) (r : Record) :
    r ∈ addIndex l ↔ ∃ i r0, l[i]? = some r0 ∧ r = withIndex r0 i := by
  simp only [addIndex, List.mem_map]
  constructor
  · rintro ⟨⟨i, a⟩, hmem, rfl⟩
    exact ⟨i, a, List.mk_mem_enum_iff_getElem?.1 hmem, rfl⟩
  · rintro ⟨i, r0, hget, rfl⟩
    exact ⟨(i, r0), List.mk_mem_enum_iff_getElem?.2 hget, rfl⟩

theorem urls_addIndex (l : List Record) : urls (addIndex l) = urls l := by
  simp only [urls, addIndex, List.map_map]
  have : ((fun r : Record => r.originalUrl) ∘ fun p : Nat × Record => withIndex p.2 p.1)
      = (fun r : Record => r.originalUrl) ∘ Prod.snd := by
    funext p; simp [withIndex]
  rw [this, ← List.map_map, List.enum_map_snd]

theorem originalUrl_mergeOne (hm : List (String × Record)) (el : Record) :
    (mergeOne hm el).originalUrl = el.originalUrl := by
  unfold mergeOne
  cases lookupUrl hm el.originalUrl <;> simp [spread]

theorem urls_merged (hm : List (String × Record)) (els : List Record) :
    urls (addIndex (els.map (mergeOne hm))) = urls els := by
  rw [urls_addIndex]
  simp [urls, List.map_map, Function.comp_def, originalUrl_mergeOne]

theorem index_eq_of_nodup_urls (l : List Record) (hl : (urls l).Nodup) (i j : Nat)
    (a b : Record) (ha : l[i]? = some a) (hb : l[j]? = some b)
    (hab : a.originalUrl = b.originalUrl) : i = j := by
  obtain ⟨hi, rfl⟩ := List.getElem?_eq_some.1 ha
  obtain ⟨hj, rfl⟩ := List.getElem?_eq_some.1 hb
  have hi2 : i < (urls l).length := by simpa [urls] using hi
  have hj2 : j < (urls l).length := by simpa [urls] using hj
  have hget : (urls l)[i] = (urls l)[j] := by simpa [urls] using hab
  exact (@List.Nodup.getElem_inj_iff _ (urls l) hl i hi2 j hj2).1 hget

theorem matched_position_pushed (tabs bookmarks history : List Record) (el : Record)
    (hel : el ∈ bookmarks ++ tabs) (p : Nat) (h : Record)
    (hm : MatchedAt history el.originalUrl p h) :
    some (Val.num (p : Int)) ∈
      pushed (historyMap history) bookmarks ++ pushed (historyMap history) tabs := by
  obtain ⟨r, hr⟩ := lookupUrl_historyMap_isSome history el.originalUrl
    ⟨h, List.getElem?_mem hm.1, hm.2.1⟩
  obtain ⟨p2, h2, hm2, rfl⟩ := lookupUrl_historyMap_some history el.originalUrl r hr
  have hpp : p2 = p := by
    rcases Nat.lt_trichotomy p2 p with hlt | heq | hgt
    · exact absurd hm.2.1 (hm2.2.2 p h hlt hm.1)
    · exact heq
    · exact absurd hm2.2.1 (hm.2.2 p2 h2 hgt hm2.1)
  subst hpp
  have hv : (withIndex h2 p2).get "index" = some (Val.num (p2 : Int)) := get_withIndex h2 p2
  rw [List.mem_append]
  rcases List.mem_append.1 hel with hb | ht
  · exact Or.inl ((mem_pushed _ _ _).2 ⟨el, hb, _, hr, hv⟩)
  · exact Or.inr ((mem_pushed _ _ _).2 ⟨el, ht, _, hr, hv⟩)

theorem history_survivor (tabs bookmarks history : List Record) (r : Record)
    (hr : r ∈ (mergeAndIndex tabs bookmarks history).history) :
    ∃ i r0, history[i]? = some r0 ∧ r.originalUrl = r0.originalUrl ∧
      ∀ el ∈ bookmarks ++ tabs, ¬ MatchedAt history el.originalUrl i r0 := by
  simp only [mergeAndIndex] at hr
  obtain ⟨j, r0, hj, rfl⟩ := (mem_addIndex _ _).1 hr
  obtain ⟨i, hi, hdel⟩ := (mem_removeMerged _ _ _).1 (List.getElem?_mem hj)
  refine ⟨i, r0, hi, by simp [withIndex], ?_⟩
  intro el hel hm
  exact hdel (matched_position_pushed tabs bookmarks history el hel i r0 hm)

theorem matchedAt_of_nodup (history : List Record) (hH : (urls history).Nodup) (i : Nat)
    (r0 : Record) (hi : history[i]? = some r0) :
    MatchedAt history r0.originalUrl i r0 := by
  refine ⟨hi, rfl, ?_⟩
  intro q h2 hq hget heq
  have := index_eq_of_nodup_urls history hH q i h2 r0 hget hi heq
  omega

theorem survivor_url_unmatched (tabs bookmarks history : List Record)
    (hH : (urls history).Nodup) (r : Record)
    (hr : r ∈ (mergeAndIndex tabs bookmarks history).history) (el : Record)
    (hel : el ∈ bookmarks ++ tabs) : r.originalUrl ≠ el.originalUrl := by
  intro heq
  obtain ⟨i, r0, hi, hu, hnot⟩ := history_survivor tabs bookmarks history r hr
  have hm := matchedAt_of_nodup history hH i r0 hi
  rw [← hu, heq] at hm
  exact hnot el hel hm

/-- C3, amended. When the history records have pairwise distinct `originalUrl`,
no record of the output `history` has the `originalUrl` of a record of the
input `bookmarks` or `tabs`. -/
theorem merged_history_removed (tabs bookmarks history : List Record)
    (hH : (urls history).Nodup) :
    ∀ r ∈ (mergeAndIndex tabs bookmarks history).history,
      ∀ el ∈ bookmarks ++ tabs, r.originalUrl ≠ el.originalUrl :=
  fun r hr el hel => survivor_url_unmatched tabs bookmarks history hH r hr el hel

/-- C3 amended, at the merge-precedence example: the history URLs are distinct
and the output history holds no record with the URL of the bookmark. -/
theorem merged_history_removed_witness :
    (urls [historyA]).Nodup ∧
    ∀ r ∈ (mergeAndIndex [] [bookmarkA] [historyA]).history,
      ∀ el ∈ [bookmarkA] ++ [], r.originalUrl ≠ el.originalUrl :=
  ⟨by decide, merged_history_removed [] [bookmarkA] [historyA] (by decide)⟩

/-- C3 as stated fails: with two history records of URL "a" and a bookmark of
URL "a", only the later history record is removed; the earlier one stays in the
output `history`. -/
theorem merged_history_removed_counterexample :
    ¬ (∀ r ∈ (mergeAndIndex [] [bookmarkA] [historyEarlierA, historyA]).history,
        ∀ el ∈ [bookmarkA] ++ [], r.originalUrl ≠ el.originalUrl) ∧
    urls (mergeAndIndex [] [bookmarkA] [historyEarlierA, historyA]).history = ["a"] := by
  decide

/-! ## Exactly once per sequence -/

theorem matchedAt_unique_of_nodup (history : List Record) (hH : (urls history).Nodup)
    (u : String) (p : Nat) (h0 h : Record) (hm : MatchedAt history u p h0)
    (hh : h ∈ history) (hu : h.originalUrl = u) : h0 = h := by
  obtain ⟨j, hj⟩ := List.mem_iff_getElem?.1 hh
  have hpj := index_eq_of_nodup_urls history hH p j h0 h hm.1 hj (by rw [hm.2.1, hu])
  subst hpj
  rw [hm.1] at hj
  exact Option.some.inj hj

theorem overlaid_of_mem_merged (history els : List Record) (hH : (urls history).Nodup)
    (h : Record) (hh : h ∈ history) (r : Record)
    (hr : r ∈ addIndex (els.map (mergeOne (historyMap history))))
    (hu : r.originalUrl = h.originalUrl) :
    ∃ el ∈ els, el.originalUrl = h.originalUrl ∧ Overlaid r el h := by
  obtain ⟨i, r0, hi, rfl⟩ := (mem_addIndex _ _).1 hr
  rw [List.getElem?_map] at hi
  cases hel : els[i]? with
  | none => rw [hel] at hi; cases hi
  | some el =>
    rw [hel] at hi
    simp only [Option.map_some', Option.some.injEq] at hi
    subst hi
    have hurl : el.originalUrl = h.originalUrl := by
      have : (withIndex (mergeOne (historyMap history) el) i).originalUrl = el.originalUrl := by
        simp [withIndex, originalUrl_mergeOne]
      rw [← this]; exact hu
    obtain ⟨p, h0, hm, hov⟩ := overlaid_mergeOne history el i ⟨h, hh, hurl.symm⟩
    have h0h : h0 = h := matchedAt_unique_of_nodup history hH _ p h0 h hm hh hurl.symm
    subst h0h
    exact ⟨el, List.getElem?_mem hel, hurl, hov⟩

/-- C4, amended. When tabs, bookmarks and history each have pairwise distinct
`originalUrl`, an `originalUrl` carried by the history record `h` and by a
bookmark or a tab is carried by no record of the output `history`, by exactly
one record of the output `bookmarks` when a bookmark carries it (none
otherwise), and by exactly one record of the output `tabs` when a tab carries
it (none otherwise); each of these records is the bookmark or tab overlaid on
the fields of `h`. -/
theorem exactly_once_per_sequence (tabs bookmarks history : List Record) (h : Record)
    (hT : (urls tabs).Nodup) (hB : (urls bookmarks).Nodup) (hH : (urls history).Nodup)
    (hh : h ∈ history)
    (hel : h.originalUrl ∈ urls bookmarks ∨ h.originalUrl ∈ urls tabs) :
    (urls (mergeAndIndex tabs bookmarks history).history).count h.originalUrl = 0 ∧
    (urls (mergeAndIndex tabs bookmarks history).bookmarks).count h.originalUrl =
      (if h.originalUrl ∈ urls bookmarks then 1 else 0) ∧
    (urls (mergeAndIndex tabs bookmarks history).tabs).count h.originalUrl =
      (if h.originalUrl ∈ urls tabs then 1 else 0) ∧
    (∀ r ∈ (mergeAndIndex tabs bookmarks history).bookmarks,
      r.originalUrl = h.originalUrl →
        ∃ b ∈ bookmarks, b.originalUrl = h.originalUrl ∧ Overlaid r b h) ∧
    (∀ r ∈ (mergeAndIndex tabs bookmarks history).tabs,
      r.originalUrl = h.originalUrl →
        ∃ t ∈ tabs, t.originalUrl = h.originalUrl ∧ Overlaid r t h) := by
  have hcount : ∀ l : List Record, (urls l).Nodup →
      (urls l).count h.originalUrl = (if h.originalUrl ∈ urls l then 1 else 0) := by
    intro l hl
    by_cases hm : h.originalUrl ∈ urls l
    · simp [hm, List.count_eq_one_of_mem hl hm]
    · simp [hm, List.count_eq_zero_of_not_mem hm]
  refine ⟨?_, ?_, ?_, ?_, ?_⟩
  · apply List.count_eq_zero_of_not_mem
    intro hmem
    obtain ⟨r, hr, hru⟩ := List.mem_map.1 hmem
    have hel2 : ∃ el ∈ bookmarks ++ tabs, el.originalUrl = h.originalUrl := by
      rcases hel with hb | ht
      · obtain ⟨b, hb1, hb2⟩ := List.mem_map.1 hb
        exact ⟨b, List.mem_append_left _ hb1, hb2⟩
      · obtain ⟨t, ht1, ht2⟩ := List.mem_map.1 ht
        exact ⟨t, List.mem_append_right _ ht1, ht2⟩
    obtain ⟨el, hel3, hel4⟩ := hel2
    exact survivor_url_unmatched tabs bookmarks history hH r hr el hel3 (hru.trans hel4.symm)
  · simp only [mergeAndIndex, urls_merged]
    exact hcount bookmarks hB
  · simp only [mergeAndIndex, urls_merged]
    exact hcount tabs hT
  · intro r hr hu
    exact overlaid_of_mem_merged history bookmarks hH h hh r hr hu
  · intro r hr hu
    exact overlaid_of_mem_merged history tabs hH h hh r hr hu

/-- C4 amended, at a tab, a bookmark and a history record that all carry the
URL "a": none in the output history, one in the output bookmarks, one in the
output tabs. -/
theorem exactly_once_per_sequence_witness :
    (urls (mergeAndIndex [tabA] [bookmarkA] [historyA]).history).count "a" = 0 ∧
    (urls (mergeAndIndex [tabA] [bookmarkA] [historyA]).bookmarks).count "a" = 1 ∧
    (urls (mergeAndIndex [tabA] [bookmarkA] [historyA]).tabs).count "a" = 1 ∧
    (∀ r ∈ (mergeAndIndex [tabA] [bookmarkA] [historyA]).bookmarks,
      r.originalUrl = "a" → ∃ b ∈ [bookmarkA], b.originalUrl = "a" ∧ Overlaid r b historyA) ∧
    (∀ r ∈ (mergeAndIndex [tabA] [bookmarkA] [historyA]).tabs,
      r.originalUrl = "a" → ∃ t ∈ [tabA], t.originalUrl = "a" ∧ Overlaid r t historyA) :=
  exactly_once_per_sequence [tabA] [bookmarkA] [historyA] historyA
    (by decide) (by decide) (by decide) (by decide) (by decide)

/-- C4 as stated fails: a tab, a bookmark and a history record of URL "a", each
sequence with distinct URLs, give an output dataset in which two records carry
"a" (the merged tab and the merged bookmark), not exactly one. -/
theorem exactly_once_counterexample :
    (urls [tabA]).Nodup ∧ (urls [bookmarkA]).Nodup ∧ (urls [historyA]).Nodup ∧
    "a" ∈ urls [historyA] ∧ "a" ∈ urls [bookmarkA] ∧ "a" ∈ urls [tabA] ∧
    (urls ((mergeAndIndex [tabA] [bookmarkA] [historyA]).tabs ++
            (mergeAndIndex [tabA] [bookmarkA] [historyA]).bookmarks ++
            (mergeAndIndex [tabA] [bookmarkA] [historyA]).history)).count "a" = 2 := by
  decide

/-! ## Merge of fetched and cached history by id -/

theorem ids_append (a b : List HistoryItem) : ids (a ++ b) = ids a ++ ids b := by
  simp [ids]

theorem mem_seen_iff (l : List HistoryItem) :
    ∀ i : String, i ∈ (l.foldl mergeStep ([], [])).2 ↔ i ∈ ids l := by
  induction l using List.reverseRecOn with
  | nil => intro i; simp [ids]
  | append_singleton xs x ih =>
    intro i
    rw [List.foldl_append]
    simp only [List.foldl_cons, List.foldl_nil, mergeStep]
    by_cases hx : x.id ∈ (xs.foldl mergeStep ([], [])).2
    · rw [if_pos hx, ih, ids_append]
      have hx2 : x.id ∈ ids xs := (ih x.id).1 hx
      constructor
      · intro h; exact List.mem_append_left _ h
      · intro h
        rcases List.mem_append.1 h with h | h
        · exact h
        · simp [ids] at h; rw [h]; exact hx2
    · rw [if_neg hx, ids_append]
      simp only [List.mem_cons, List.mem_append, ih, ids, List.map_cons, List.map_nil,
        List.mem_singleton]
      tauto

theorem mergeHistories_concat (l : List HistoryItem) (x : HistoryItem) :
    mergeHistories (l ++ [x]) =
      if x.id ∈ ids l then mergeHistories l else mergeHistories l ++ [x] := by
  unfold mergeHistories
  rw [List.foldl_append]
  simp only [List.foldl_cons, List.foldl_nil, mergeStep, mem_seen_iff]
  by_cases hx : x.id ∈ ids l
  · simp [hx]
  · simp [hx]

theorem mergeHistories_nil : mergeHistories [] = [] := rfl

theorem mem_ids_mergeHistories (l : List HistoryItem) :
    ∀ i : String, i ∈ ids (mergeHistories l) ↔ i ∈ ids l := by
  induction l using List.reverseRecOn with
  | nil => intro i; simp [mergeHistories_nil]
  | append_singleton xs x ih =>
    intro i
    rw [mergeHistories_concat]
    by_cases hx : x.id ∈ ids xs
    · rw [if_pos hx, ih, ids_append]
      constructor
      · intro h; exact List.mem_append_left _ h
      · intro h
        rcases List.mem_append.1 h with h | h
        · exact h
        · simp [ids] at h; rw [h]; exact hx
    · rw [if_neg hx, ids_append, ids_append, List.mem_append, List.mem_append, ih]

theorem nodup_ids_mergeHistories (l : List HistoryItem) : (ids (mergeHistories l)).Nodup := by
  induction l using List.reverseRecOn with
  | nil => simp [mergeHistories_nil, ids]
  | append_singleton xs x ih =>
    rw [mergeHistories_concat]
    by_cases hx : x.id ∈ ids xs
    · rw [if_pos hx]; exact ih
    · rw [if_neg hx, ids_append]
      apply List.Nodup.append ih (by simp [ids])
      intro i hi hi2
      simp [ids] at hi2
      subst hi2
      exact hx ((mem_ids_mergeHistories xs _).1 hi)

theorem mergeHistories_sublist (l : List HistoryItem) : (mergeHistories l).Sublist l := by
  induction l using List.reverseRecOn with
  | nil => simp [mergeHistories_nil]
  | append_singleton xs x ih =>
    rw [mergeHistories_concat]
    by_cases hx : x.id ∈ ids xs
    · rw [if_pos hx]
      exact ih.trans (List.sublist_append_left xs [x])
    · rw [if_neg hx]
      exact List.Sublist.append ih (List.Sublist.refl _)

/-- C6 (id-dedup keeps each identifier once). For every fetched list `F` and
cached list `C`, the merged history built from `F ++ C` has pairwise distinct
`id` values, and an `id` occurs in it iff it occurs in `F` or in `C`. -/
theorem history_ids_once (F C : List HistoryItem) :
    (ids (mergeHistories (F ++ C))).Nodup ∧
    ∀ i : String, i ∈ ids (mergeHistories (F ++ C)) ↔ (i ∈ ids F ∨ i ∈ ids C) := by
  refine ⟨nodup_ids_mergeHistories _, ?_⟩
  intro i
  rw [mem_ids_mergeHistories, ids_append, List.mem_append]

theorem keepFirstOccurrences_concat (l : List HistoryItem) (x : HistoryItem) :
    keepFirstOccurrences (l ++ [x]) =
      if x.id ∈ ids l then keepFirstOccurrences l else keepFirstOccurrences l ++ [x] := by
  unfold keepFirstOccurrences
  rw [List.enum_append, List.filter_append, List.map_append]
  have h1 : (l.enum.filter
        (fun (p : Nat × HistoryItem) => decide (∀ y ∈ (l ++ [x]).take p.1, y.id ≠ p.2.id))) =
      (l.enum.filter
        (fun (p : Nat × HistoryItem) => decide (∀ y ∈ l.take p.1, y.id ≠ p.2.id))) := by
    apply List.filter_congr
    intro p hp
    have hlt : p.1 < l.length := List.fst_lt_of_mem_enum hp
    rw [List.take_append_of_le_length (Nat.le_of_lt hlt)]
  rw [h1]
  by_cases hx : x.id ∈ ids l
  · rw [if_pos hx]
    have : ¬ ∀ y ∈ l, ¬ y.id = x.id := by
      intro hall
      obtain ⟨y, hy, hyx⟩ := List.mem_map.1 hx
      exact hall y hy hyx
    simp [List.enumFrom, List.filter, this]
  · rw [if_neg hx]
    have : ∀ y ∈ l, ¬ y.id = x.id := by
      intro y hy hyx
      exact hx (List.mem_map.2 ⟨y, hy, hyx⟩)
    simp [List.enumFrom, List.filter, decide_eq_true this]

theorem mergeHistories_eq_keepFirstOccurrences (l : List HistoryItem) :
    mergeHistories l = keepFirstOccurrences l := by
  induction l using List.reverseRecOn with
  | nil => rfl
  | append_singleton xs x ih =>
    rw [mergeHistories_concat, keepFirstOccurrences_concat, ih]

theorem mergeHistories_of_nodup (l : List HistoryItem) (h : (ids l).Nodup) :
    mergeHistories l = l := by
  induction l using List.reverseRecOn with
  | nil => rfl
  | append_singleton xs x ih =>
    rw [ids_append] at h
    have hx : x.id ∉ ids xs := by
      intro hmem
      exact (List.nodup_append.1 h).2.2 hmem (by simp [ids])
    rw [mergeHistories_concat, if_neg hx, ih (List.nodup_append.1 h).1]

theorem mergeHistories_append (F C : List HistoryItem) :
    mergeHistories (F ++ C) =
      mergeHistories F ++ mergeHistories (C.filter (fun c => decide (c.id ∉ ids F))) := by
  induction C using List.reverseRecOn with
  | nil => simp [mergeHistories_nil]
  | append_singleton cs x ih =>
    rw [← List.append_assoc, mergeHistories_concat, ih, List.filter_append]
    by_cases hF : x.id ∈ ids F
    · have h1 : x.id ∈ ids (F ++ cs) := by rw [ids_append]; exact List.mem_append_left _ hF
      simp [h1, hF, List.filter]
    · have hfil : [x].filter (fun c => decide (c.id ∉ ids F)) = [x] := by
        simp [List.filter, hF]
      rw [hfil, mergeHistories_concat]
      have hiff : x.id ∈ ids (F ++ cs) ↔
          x.id ∈ ids (cs.filter (fun c => decide (c.id ∉ ids F))) := by
        rw [ids_append, List.mem_append]
        constructor
        · rintro (h | h)
          · exact absurd h hF
          · obtain ⟨y, hy, hyx⟩ := List.mem_map.1 h
            refine List.mem_map.2 ⟨y, List.mem_filter.2 ⟨hy, ?_⟩, hyx⟩
            simp only [decide_eq_true_eq]
            rw [hyx]; exact hF
        · intro h
          obtain ⟨y, hy, hyx⟩ := List.mem_map.1 h
          exact Or.inr (List.mem_map.2 ⟨y, (List.mem_filter.1 hy).1, hyx⟩)
      by_cases hc : x.id ∈ ids (F ++ cs)
      · rw [if_pos hc, if_pos (hiff.1 hc)]
      · rw [if_neg hc, if_neg (fun h => hc (hiff.2 h)), List.append_assoc]

/-- C7 (fresh over cached, order). For every fetched list `F` and cached list
`C`, the merged history is the subsequence of `F ++ C` keeping a record iff no
earlier record of `F ++ C` has its `id`. It is the first occurrences of `F`
followed by the first occurrences of the cached records whose id is not in `F`,
in cache order, so an id of both `F` and `C` is carried by the record of `F`;
and when `F` has pairwise distinct ids the first part is `F` itself. -/
theorem fresh_over_cached (F C : List HistoryItem) :
    mergeHistories (F ++ C) = keepFirstOccurrences (F ++ C) ∧
    mergeHistories (F ++ C) =
      keepFirstOccurrences F ++
        keepFirstOccurrences (C.filter (fun c => decide (c.id ∉ ids F))) ∧
    (∀ x ∈ keepFirstOccurrences (C.filter (fun c => decide (c.id ∉ ids F))), x.id ∉ ids F) ∧
    ((ids F).Nodup →
      mergeHistories (F ++ C) =
        F ++ keepFirstOccurrences (C.filter (fun c => decide (c.id ∉ ids F)))) := by
  refine ⟨mergeHistories_eq_keepFirstOccurrences _, ?_, ?_, ?_⟩
  · rw [mergeHistories_append, mergeHistories_eq_keepFirstOccurrences,
      mergeHistories_eq_keepFirstOccurrences]
  · intro x hx
    rw [← mergeHistories_eq_keepFirstOccurrences] at hx
    have := (mergeHistories_sublist _).subset hx
    simpa using (List.mem_filter.1 this).2
  · intro hF
    rw [mergeHistories_append, mergeHistories_of_nodup F hF,
      mergeHistories_eq_keepFirstOccurrences]

/-- C7 at a fetch of items 1 and 2 and a cache holding item 2 (older copy) and
item 3 twice: the merged history is the two fetched items followed by the first
cached copy of item 3. -/
theorem fresh_over_cached_witness :
    (ids [sampleItem "1" 900 "new", sampleItem "2" 800 "new"]).Nodup ∧
    mergeHistories ([sampleItem "1" 900 "new", sampleItem "2" 800 "new"] ++
        [sampleItem "2" 500 "old", sampleItem "3" 400 "old", sampleItem "3" 300 "older"]) =
      [sampleItem "1" 900 "new", sampleItem "2" 800 "new", sampleItem "3" 400 "old"] :=
  ⟨by decide,
   ((fresh_over_cached [sampleItem "1" 900 "new", sampleItem "2" 800 "new"]
      [sampleItem "2" 500 "old", sampleItem "3" 400 "old", sampleItem "3" 300 "older"]).2.2.2
      (by decide)).trans (by decide)⟩

/-! ## Dedup invariant on originalUrl -/

theorem removeMerged_sublist (history : List Record) (del : List (Option Val)) :
    (removeMerged history del).Sublist history := by
  unfold removeMerged
  have h := (@List.filter_sublist _
    (fun (p : Nat × Record) => decide (some (Val.num (p.1 : Int)) ∉ del))
    history.enum).map Prod.snd
  rwa [List.enum_map_snd] at h

theorem nodup_urls_converted (l : List HistoryItem) (f : HistoryItem → Record)
    (hl : (ids l).Nodup)
    (hid : ∀ x ∈ l, ∀ y ∈ l, (f x).originalUrl = (f y).originalUrl → x.id = y.id) :
    (urls (l.map f)).Nodup := by
  unfold urls
  rw [List.map_map]
  apply List.Nodup.map_on
  · intro x hx y hy hxy
    exact List.inj_on_of_nodup_map hl hx hy (hid x hx y hy hxy)
  · exact List.Nodup.of_map _ hl

/-- C5 (dedup invariant on originalUrl). When the tabs have pairwise distinct
`originalUrl`, the bookmarks have pairwise distinct `originalUrl`, and any two
records of fetched ++ cached history that the converter (one record `f x` per
item `x`) gives the same `originalUrl` share their `id`, no two records of the
same output sequence have the same `originalUrl`. -/
theorem dedup_invariant (tabs bookmarks : List Record) (F C : List HistoryItem)
    (f : HistoryItem → Record)
    (hT : (urls tabs).Nodup) (hB : (urls bookmarks).Nodup)
    (hid : ∀ x ∈ F ++ C, ∀ y ∈ F ++ C,
      (f x).originalUrl = (f y).originalUrl → x.id = y.id) :
    (urls (mergeAndIndex tabs bookmarks ((mergeHistories (F ++ C)).map f)).tabs).Nodup ∧
    (urls (mergeAndIndex tabs bookmarks ((mergeHistories (F ++ C)).map f)).bookmarks).Nodup ∧
    (urls (mergeAndIndex tabs bookmarks ((mergeHistories (F ++ C)).map f)).history).Nodup := by
  refine ⟨?_, ?_, ?_⟩
  · simp only [mergeAndIndex, urls_merged]; exact hT
  · simp only [mergeAndIndex, urls_merged]; exact hB
  · simp only [mergeAndIndex, urls_addIndex]
    have hH : (urls ((mergeHistories (F ++ C)).map f)).Nodup := by
      apply nodup_urls_converted _ f (nodup_ids_mergeHistories _)
      intro x hx y hy
      exact hid x ((mergeHistories_sublist _).subset hx) y ((mergeHistories_sublist _).subset hy)
    exact List.Nodup.sublist ((removeMerged_sublist _ _).map _) hH

/-- C5 at a re-fetch overlap: item 2 is both fetched and cached, the bookmark
and the tab carry the URL of item 1. -/
theorem dedup_invariant_witness :
    urls (mergeAndIndex [⟨"https://1.example", []⟩] [⟨"https://1.example", []⟩]
      ((mergeHistories ([sampleItem "1" 900 "new", sampleItem "2" 800 "new"] ++
        [sampleItem "2" 500 "old", sampleItem "3" 400 "old"])).map sampleRecord)).history =
      ["https://2.example", "https://3.example"] ∧
    (urls (mergeAndIndex [⟨"https://1.example", []⟩] [⟨"https://1.example", []⟩]
      ((mergeHistories ([sampleItem "1" 900 "new", sampleItem "2" 800 "new"] ++
        [sampleItem "2" 500 "old", sampleItem "3" 400 "old"])).map sampleRecord)).history).Nodup :=
  ⟨by decide,
   (dedup_invariant [⟨"https://1.example", []⟩] [⟨"https://1.example", []⟩]
      [sampleItem "1" 900 "new", sampleItem "2" 800 "new"]
      [sampleItem "2" 500 "old", sampleItem "3" 400 "old"] sampleRecord
      (by decide) (by decide) (by decide)).2.2⟩

/-! ## Fetch window -/

/-- C8 evaluated on the code. Two hours after the last fetch, with a one-day
window: a cache with visit times [500] or [500, 499] makes the provider start
at 501, but the same records in the order [499, 500] make it start at 500,
which is the maximum itself and not the maximum plus one. -/
theorem resume_point_depends_on_order :
    (cachedEnv [sampleItem "1" 500 "c"]).storage.historyLastFetched.getD 0 ≠ 0 ∧
    ¬ ((cachedEnv [sampleItem "1" 500 "c"]).storage.historyLastFetched.getD 0 <
        (cachedEnv [sampleItem "1" 500 "c"]).now - msPerDay) ∧
    requestedFrom (cachedEnv [sampleItem "1" 500 "c"]) = some (some 501) ∧
    requestedFrom (cachedEnv [sampleItem "1" 500 "c", sampleItem "2" 499 "c"]) =
      some (some 501) ∧
    requestedFrom (cachedEnv [sampleItem "1" 499 "c", sampleItem "2" 500 "c"]) =
      some (some 500) := by
  decide

theorem fetchWindow_stale (now days t : Int) (storage : Storage)
    (hlf : storage.historyLastFetched = some t) (ht0 : t ≠ 0) (hstale : t < now - msPerDay) :
    fetchWindow now days storage = Except.ok (some (now - msPerDay * days), []) := by
  simp [fetchWindow, hlf, ht0, hstale]

theorem storage_useMockData (env : Env) (g : Gathered) :
    (useMockData env g).storage = g.storage := by
  unfold useMockData
  split
  · cases env.mock <;> rfl
  · rfl

theorem getSearchData_of_gatherLive (env : Env) (live : Gathered)
    (h : gatherLive env = Except.ok live) :
    getSearchData env = Except.ok
      (mergeAndIndex (useMockData env live).tabs (useMockData env live).bookmarks
        (useMockData env live).history, live.storage) := by
  simp [getSearchData, h, storage_useMockData]

theorem getSearchData_of_fetchHistory (env : Env) (f : HistoryFetch)
    (hApi : env.api.history = true) (hEn : env.opts.enableHistory = true)
    (hf : fetchHistory env = Except.ok f) :
    getSearchData env = Except.ok
      (mergeAndIndex
        (useMockData env
          { tabs := if env.api.tabs && env.opts.enableTabs
              then env.convertBrowserTabs env.browserTabs else []
            bookmarks := if env.api.bookmarks && env.opts.enableBookmarks
              then env.convertBrowserBookmarks env.browserBookmarks else []
            history := env.convertBrowserHistory f.browserHistory
            storage := f.storage }).tabs
        (useMockData env
          { tabs := if env.api.tabs && env.opts.enableTabs
              then env.convertBrowserTabs env.browserTabs else []
            bookmarks := if env.api.bookmarks && env.opts.enableBookmarks
              then env.convertBrowserBookmarks env.browserBookmarks else []
            history := env.convertBrowserHistory f.browserHistory
            storage := f.storage }).bookmarks
        (useMockData env
          { tabs := if env.api.tabs && env.opts.enableTabs
              then env.convertBrowserTabs env.browserTabs else []
            bookmarks := if env.api.bookmarks && env.opts.enableBookmarks
              then env.convertBrowserBookmarks env.browserBookmarks else []
            history := env.convertBrowserHistory f.browserHistory
            storage := f.storage }).history, f.storage) := by
  have hg : gatherLive env = Except.ok
      { tabs := if env.api.tabs && env.opts.enableTabs
          then env.convertBrowserTabs env.browserTabs else []
        bookmarks := if env.api.bookmarks && env.opts.enableBookmarks
          then env.convertBrowserBookmarks env.browserBookmarks else []
        history := env.convertBrowserHistory f.browserHistory
        storage := f.storage } := by
    simp [gatherLive, hApi, hEn, hf]
  exact getSearchData_of_gatherLive env _ hg

/-- C9 (stale cache gives a full refresh). When the last-fetch timestamp `t` is
non-zero and strictly older than `now - 24h` (wherever it lies relative to the
window start), the history block asks the provider from
`now - historyDaysAgo * 24h`, merges no cached record whatever is stored under
`history`, and the merged history and the new snapshot are the id-dedup of the
fetched records alone; with the history source live and enabled the call
returns and leaves exactly that cache. -/
theorem stale_cache_full_refresh (env : Env) (t : Int)
    (hApi : env.api.history = true) (hEn : env.opts.enableHistory = true)
    (hlf : env.storage.historyLastFetched = some t) (ht0 : t ≠ 0)
    (hstale : t < env.now - msPerDay) :
    fetchHistory env = Except.ok
      { startTime := some (env.now - msPerDay * env.opts.historyDaysAgo)
        historyC := []
        historyFromApi := env.getBrowserHistory
          (some (env.now - msPerDay * env.opts.historyDaysAgo)) env.opts.historyMaxItems
        browserHistory := mergeHistories (env.getBrowserHistory
          (some (env.now - msPerDay * env.opts.historyDaysAgo)) env.opts.historyMaxItems)
        storage :=
          { historyLastFetched := some env.now
            history := StoredHistory.items (mergeHistories (env.getBrowserHistory
              (some (env.now - msPerDay * env.opts.historyDaysAgo))
              env.opts.historyMaxItems)) } } ∧
    ∃ data, getSearchData env = Except.ok (data,
      { historyLastFetched := some env.now
        history := StoredHistory.items (mergeHistories (env.getBrowserHistory
          (some (env.now - msPerDay * env.opts.historyDaysAgo))
          env.opts.historyMaxItems)) }) := by
  have hw := fetchWindow_stale env.now env.opts.historyDaysAgo t env.storage hlf ht0 hstale
  have hf : fetchHistory env = Except.ok
      { startTime := some (env.now - msPerDay * env.opts.historyDaysAgo)
        historyC := []
        historyFromApi := env.getBrowserHistory
          (some (env.now - msPerDay * env.opts.historyDaysAgo)) env.opts.historyMaxItems
        browserHistory := mergeHistories (env.getBrowserHistory
          (some (env.now - msPerDay * env.opts.historyDaysAgo)) env.opts.historyMaxItems)
        storage :=
          { historyLastFetched := some env.now
            history := StoredHistory.items (mergeHistories (env.getBrowserHistory
              (some (env.now - msPerDay * env.opts.historyDaysAgo))
              env.opts.historyMaxItems)) } } := by
    simp [fetchHistory, hw]
  refine ⟨hf, ?_⟩
  exact ⟨_, getSearchData_of_fetchHistory env _ hApi hEn hf⟩

/-- C9 at a last fetch thirty hours ago with a window of fourteen days: the
timestamp is stale although newer than the window start, the unparseable
snapshot is not read, the provider is asked from the window start and the cache
becomes the fetched items. -/
theorem stale_cache_full_refresh_witness :
    ((1892000000 : Int) < staleEnv.now - msPerDay ∧
      staleEnv.now - msPerDay * staleEnv.opts.historyDaysAgo < 1892000000) ∧
    requestedFrom staleEnv = some (some 790400000) ∧
    ∃ data, getSearchData staleEnv = Except.ok (data,
      { historyLastFetched := some staleEnv.now
        history := StoredHistory.items (mergeHistories (staleEnv.getBrowserHistory
          (some (staleEnv.now - msPerDay * staleEnv.opts.historyDaysAgo))
          staleEnv.opts.historyMaxItems)) }) :=
  ⟨by decide, by decide,
   (stale_cache_full_refresh staleEnv 1892000000 rfl rfl rfl (by decide) (by decide)).2⟩

/-! ## Cache replacement -/

theorem fetchHistory_ok (env : Env) (f : HistoryFetch) (hf : fetchHistory env = Except.ok f) :
    f.historyFromApi = env.getBrowserHistory f.startTime env.opts.historyMaxItems ∧
    f.browserHistory = mergeHistories (f.historyFromApi ++ f.historyC) ∧
    f.storage = { historyLastFetched := some env.now
                  history := StoredHistory.items f.browserHistory } := by
  unfold fetchHistory at hf
  cases hw : fetchWindow env.now env.opts.historyDaysAgo env.storage with
  | error e => rw [hw] at hf; cases hf
  | ok w =>
    obtain ⟨startTime, historyC⟩ := w
    rw [hw] at hf
    injection hf with hf
    subst hf
    exact ⟨rfl, rfl, rfl⟩

theorem getSearchData_without_history (env : Env)
    (h : ¬ (env.api.history = true ∧ env.opts.enableHistory = true)) :
    ∃ data, getSearchData env = Except.ok (data, env.storage) := by
  have hg : gatherLive env = Except.ok
      { tabs := if env.api.tabs && env.opts.enableTabs
          then env.convertBrowserTabs env.browserTabs else []
        bookmarks := if env.api.bookmarks && env.opts.enableBookmarks
          then env.convertBrowserBookmarks env.browserBookmarks else []
        history := []
        storage := env.storage } := by
    have hc : (env.api.history && env.opts.enableHistory) = false := by
      cases h1 : env.api.history <;> cases h2 : env.opts.enableHistory <;> simp_all
    simp [gatherLive, hc]
  exact ⟨_, getSearchData_of_gatherLive env _ hg⟩

/-- C10 (cache replacement). With the history capability present and enabled,
every run of the history block that completes leaves both cache keys
overwritten: `historyLastFetched` is `now` and `history` is the id-dedup of the
provider records followed by the cached ones, as raw items, and the call
returns with exactly this cache. With the history source disabled or its
capability absent the call returns with the cache untouched. -/
theorem cache_replacement (env : Env) :
    (env.api.history = true → env.opts.enableHistory = true →
      ∀ f, fetchHistory env = Except.ok f →
        f.historyFromApi = env.getBrowserHistory f.startTime env.opts.historyMaxItems ∧
        f.browserHistory = mergeHistories (f.historyFromApi ++ f.historyC) ∧
        ∃ data, getSearchData env = Except.ok (data,
          { historyLastFetched := some env.now
            history := StoredHistory.items f.browserHistory })) ∧
    (¬ (env.api.history = true ∧ env.opts.enableHistory = true) →
      ∃ data, getSearchData env = Except.ok (data, env.storage)) := by
  refine ⟨?_, getSearchData_without_history env⟩
  intro hApi hEn f hf
  obtain ⟨h1, h2, h3⟩ := fetchHistory_ok env f hf
  refine ⟨h1, h2, ?_⟩
  rw [← h3]
  exact ⟨_, getSearchData_of_fetchHistory env f hApi hEn hf⟩

/-- C10 at the sample environment two hours after a fetch that cached item 2
(an older copy) and item 4: the cache becomes `now` with the three provider
items followed by item 4; and with the history source switched off the cache
stays as it was. -/
theorem cache_replacement_witness :
    (∃ data, getSearchData (cachedEnv [sampleItem "2" 150 "cached", sampleItem "4" 50 "cached"]) =
      Except.ok (data,
        { historyLastFetched := some 2000000000
          history := StoredHistory.items
            [{ id := "1", lastVisitTime := some 300, url := "https://a.example", title := "a" },
             { id := "2", lastVisitTime := some 200, url := "https://b.example", title := "b" },
             { id := "3", lastVisitTime := some 100, url := "https://c.example", title := "c" },
             sampleItem "4" 50 "cached"] })) ∧
    (∃ data, getSearchData historyOffEnv = Except.ok (data, historyOffEnv.storage)) :=
  ⟨((cache_replacement
      (cachedEnv [sampleItem "2" 150 "cached", sampleItem "4" 50 "cached"])).1 rfl rfl _ rfl).2.2,
   (cache_replacement historyOffEnv).2 (by decide)⟩

/-! ## Reading a stored snapshot that is missing or does not parse -/

theorem fetchWindow_incremental (now days t : Int) (storage : Storage)
    (hlf : storage.historyLastFetched = some t) (ht0 : t ≠ 0)
    (hfresh : ¬ t < now - msPerDay) (hwin : now - msPerDay * days < t) :
    fetchWindow now days storage =
      match parseStoredHistory storage.history with
      | Except.error e => Except.error e
      | Except.ok historyC =>
        Except.ok (lastHistoryItem historyC (now - msPerDay * days), historyC) := by
  simp [fetchWindow, hlf, ht0, hfresh, hwin]

theorem getSearchData_of_fetchWindow_error (env : Env) (e : JsError)
    (hApi : env.api.history = true) (hEn : env.opts.enableHistory = true)
    (hw : fetchWindow env.now env.opts.historyDaysAgo env.storage = Except.error e) :
    getSearchData env = Except.error e := by
  simp [getSearchData, gatherLive, fetchHistory, hApi, hEn, hw]

/-- C11, amended. With the history source live and enabled, in the incremental
branch (last-fetch timestamp `t` non-zero, not older than `now - 24h`, newer
than the window start) a stored snapshot that is absent or that does not parse
makes `getSearchData` fail with the exception raised while the snapshot is
read, a TypeError resp. a SyntaxError; no dataset is returned. -/
theorem malformed_cache_throws (env : Env) (t : Int)
    (hApi : env.api.history = true) (hEn : env.opts.enableHistory = true)
    (hlf : env.storage.historyLastFetched = some t) (ht0 : t ≠ 0)
    (hfresh : ¬ t < env.now - msPerDay)
    (hwin : env.now - msPerDay * env.opts.historyDaysAgo < t) :
    (env.storage.history = StoredHistory.absent →
      getSearchData env = Except.error JsError.typeError) ∧
    (env.storage.history = StoredHistory.malformed →
      getSearchData env = Except.error JsError.syntaxError) := by
  have hw := fetchWindow_incremental env.now env.opts.historyDaysAgo t env.storage
    hlf ht0 hfresh hwin
  constructor
  · intro hs
    apply getSearchData_of_fetchWindow_error env _ hApi hEn
    rw [hw, hs]; rfl
  · intro hs
    apply getSearchData_of_fetchWindow_error env _ hApi hEn
    rw [hw, hs]; rfl

/-- C11 amended, two hours after the last fetch with a window of one day: the
unparseable snapshot ends the call with a SyntaxError. -/
theorem malformed_cache_throws_witness :
    getSearchData malformedCacheEnv = Except.error JsError.syntaxError :=
  (malformed_cache_throws malformedCacheEnv 1992800000 rfl rfl rfl
    (by decide) (by decide) (by decide)).2 rfl

/-- C11 as stated fails: two hours after the last fetch, with a window of one
day, an unparseable snapshot and a missing snapshot each end the call with an
exception instead of a dataset. -/
theorem malformed_cache_counterexample :
    (malformedCacheEnv.storage.historyLastFetched = some 1992800000 ∧
      ¬ (1992800000 : Int) < malformedCacheEnv.now - msPerDay ∧
      malformedCacheEnv.now - msPerDay * malformedCacheEnv.opts.historyDaysAgo < 1992800000) ∧
    getSearchData malformedCacheEnv = Except.error JsError.syntaxError ∧
    getSearchData absentCacheEnv = Except.error JsError.typeError :=
  ⟨by decide, rfl, rfl⟩

/-! ## Mock-data fallback -/

/-- C12 evaluated on the code. Without any provider capability and with a mock
document that loads, a configuration that enables bookmarks only gets the mock
tab under `tabs` and the mock history item under `history`, although tabs and
history are disabled. -/
theorem disabled_sources_filled_by_mock :
    mockOnlyBookmarksEnv.opts.enableTabs = false ∧
    mockOnlyBookmarksEnv.opts.enableHistory = false ∧
    ∃ out, getSearchData mockOnlyBookmarksEnv = Except.ok out ∧
      urls out.1.tabs = ["https://mock-tab.example"] ∧
      urls out.1.history = ["https://mock.example"] :=
  ⟨rfl, rfl, _, rfl, by decide, by decide⟩

theorem gatherLive_without_capabilities (env : Env)
    (hT : env.api.tabs = false) (hB : env.api.bookmarks = false)
    (hH : env.api.history = false) :
    gatherLive env = Except.ok
      { tabs := [], bookmarks := [], history := [], storage := env.storage } := by
  simp [gatherLive, hT, hB, hH]

/-- C13, amended. Without any provider capability and with a mock document `m`
that loads: when bookmarks and history are both enabled the returned sequences
are the merge and index of the three converted mock arrays; when both are
disabled they are the merge and index of the converted mock tabs with no
bookmarks and no history. The cache is left as it was. -/
theorem fallback_activation (env : Env) (m : MockData)
    (hT : env.api.tabs = false) (hB : env.api.bookmarks = false)
    (hH : env.api.history = false) (hm : env.mock = some m) :
    (env.opts.enableBookmarks = true → env.opts.enableHistory = true →
      getSearchData env = Except.ok
        (mergeAndIndex (env.convertBrowserTabs m.tabs)
          (env.convertBrowserBookmarks m.bookmarks)
          (env.convertBrowserHistory m.history), env.storage)) ∧
    (env.opts.enableBookmarks = false → env.opts.enableHistory = false →
      getSearchData env = Except.ok
        (mergeAndIndex (env.convertBrowserTabs m.tabs) [] [], env.storage)) := by
  have hg := gatherLive_without_capabilities env hT hB hH
  constructor
  · intro hEb _
    rw [getSearchData_of_gatherLive env _ hg]
    simp [useMockData, hB, hm, hEb]
  · intro hEb _
    rw [getSearchData_of_gatherLive env _ hg]
    simp [useMockData, hB, hm, hEb]

/-- C13 amended, at the sample mock document with every source enabled. -/
theorem fallback_activation_witness :
    getSearchData mockAllEnv = Except.ok
      (mergeAndIndex (sampleConvert sampleMock.tabs) (sampleConvert sampleMock.bookmarks)
        (sampleConvertHistory sampleMock.history), mockAllEnv.storage) :=
  (fallback_activation mockAllEnv sampleMock rfl rfl rfl rfl).1 rfl rfl

/-- C13 as stated fails: with bookmarks disabled the fallback loads neither the
mock bookmarks nor the mock history, so the result is not the merge of the
three converted mock arrays. -/
theorem fallback_activation_counterexample :
    mockNoBookmarksEnv.api = { tabs := false, bookmarks := false, history := false } ∧
    mockNoBookmarksEnv.mock = some sampleMock ∧
    ∃ out, getSearchData mockNoBookmarksEnv = Except.ok out ∧
      out.1 ≠ mergeAndIndex (sampleConvert sampleMock.tabs)
        (sampleConvert sampleMock.bookmarks) (sampleConvertHistory sampleMock.history) ∧
      out.1.bookmarks = [] ∧ out.1.history = [] :=
  ⟨rfl, rfl, _, rfl, by decide, by decide, by decide⟩

theorem useMockData_of_capabilities (env : Env) (g : Gathered)
    (hB : env.api.bookmarks = true) (hH : env.api.history = true) :
    useMockData env g = g := by
  simp [useMockData, hB, hH]

/-- The guard of the fallback: in every environment in which the bookmarks
capability and the history capability are both present, the mock document is
not consulted; the result does not depend on it, and it is the merge and index
of the sequences gathered from the live provider. -/
theorem mock_unused_with_bookmarks_and_history (env : Env)
    (hB : env.api.bookmarks = true) (hH : env.api.history = true) :
    (∀ mock, getSearchData { env with mock := mock } = getSearchData env) ∧
    (∀ live, gatherLive env = Except.ok live →
      getSearchData env = Except.ok
        (mergeAndIndex live.tabs live.bookmarks live.history, live.storage)) := by
  constructor
  · intro mock
    have hg : gatherLive { env with mock := mock } = gatherLive env := rfl
    unfold getSearchData
    rw [hg]
    cases gatherLive env with
    | error e => rfl
    | ok live =>
      simp only
      rw [useMockData_of_capabilities env live hB hH,
        useMockData_of_capabilities { env with mock := mock } live hB hH]
  · intro live hg
    rw [getSearchData_of_gatherLive env live hg, useMockData_of_capabilities env live hB hH]

/-- The guard of the fallback at the sample environment (all capabilities
present): putting the sample mock document in place changes nothing. -/
theorem mock_unused_with_bookmarks_and_history_witness :
    getSearchData { sampleEnv with mock := some sampleMock } = getSearchData sampleEnv :=
  (mock_unused_with_bookmarks_and_history sampleEnv rfl rfl).1 (some sampleMock)

/-- C17 evaluated on the code. With the tabs and bookmarks capabilities present,
only the history capability missing, every source enabled and a mock document
that loads, the mock document is consulted: the tab and the two bookmarks
retrieved from the live provider are replaced by the mock tab and the mock
bookmark, and the mock history item is returned as history. -/
theorem mock_replaces_live_data :
    historyMissingEnv.api = { tabs := true, bookmarks := true, history := false } ∧
    (historyMissingEnv.opts.enableTabs = true ∧
      historyMissingEnv.opts.enableBookmarks = true ∧
      historyMissingEnv.opts.enableHistory = true) ∧
    (∃ live, gatherLive historyMissingEnv = Except.ok live ∧
      urls live.tabs = ["https://b.example"] ∧
      urls live.bookmarks = ["https://x.example", "https://b.example"] ∧
      live.history = []) ∧
    ∃ out, getSearchData historyMissingEnv = Except.ok out ∧
      urls out.1.tabs = ["https://mock-tab.example"] ∧
      urls out.1.bookmarks = ["https://mock-bookmark.example"] ∧
      urls out.1.history = ["https://mock.example"] :=
  ⟨rfl, ⟨rfl, rfl, rfl⟩, ⟨_, rfl, by decide, by decide, by decide⟩,
   _, rfl, by decide, by decide, by decide⟩

/-- C18 (mock-load failure is swallowed). When loading or parsing the mock
document fails, every call whose live retrieval completed returns the merge and
index of the sequences gathered before the fallback, with no sequence replaced;
without any provider capability the call returns three empty sequences. -/
theorem mock_failure_swallowed (env : Env) (hmock : env.mock = none) :
    (∀ live, gatherLive env = Except.ok live →
      getSearchData env = Except.ok
        (mergeAndIndex live.tabs live.bookmarks live.history, live.storage)) ∧
    (env.api.tabs = false → env.api.bookmarks = false → env.api.history = false →
      getSearchData env = Except.ok
        ({ tabs := [], bookmarks := [], history := [] }, env.storage)) := by
  have hu : ∀ g, useMockData env g = g := by
    intro g
    unfold useMockData
    rw [hmock]
    split <;> rfl
  constructor
  · intro live hg
    rw [getSearchData_of_gatherLive env live hg, hu]
  · intro hT hB hH
    rw [getSearchData_of_gatherLive env _ (gatherLive_without_capabilities env hT hB hH), hu]
    rfl

/-- C18 at an environment without the bookmarks capability whose mock document
fails to load: the fallback is attempted, and the call returns the live tab and
the live history, merged and indexed, with no bookmarks. -/
theorem mock_failure_swallowed_witness :
    (!mockFailsEnv.api.bookmarks || !mockFailsEnv.api.history) = true ∧
    ∃ out, getSearchData mockFailsEnv = Except.ok out ∧
      urls out.1.tabs = ["https://b.example"] ∧ out.1.bookmarks = [] ∧
      urls out.1.history = ["https://a.example", "https://c.example"] :=
  ⟨rfl, _, (mock_failure_swallowed mockFailsEnv rfl).1 _ rfl, by decide, by decide, by decide⟩

/-! ## Start of the fetch window -/

theorem fetchWindow_no_timestamp (now days : Int) (storage : Storage)
    (h : storage.historyLastFetched.getD 0 = 0) :
    fetchWindow now days storage = Except.ok (some (now - msPerDay * days), []) := by
  simp [fetchWindow, h]

theorem fetchWindow_old (now days : Int) (storage : Storage)
    (h : storage.historyLastFetched.getD 0 ≤ now - msPerDay * days) :
    fetchWindow now days storage = Except.ok (some (now - msPerDay * days), []) := by
  unfold fetchWindow
  simp only
  split
  · split
    · rfl
    · rw [if_neg (by omega)]
  · rfl

theorem lastHistoryItem_nil (startTime : Int) : lastHistoryItem [] startTime = some startTime :=
  rfl

theorem fetchHistory_of_fetchWindow (env : Env) (startTime : JsNum)
    (historyC : List HistoryItem)
    (hw : fetchWindow env.now env.opts.historyDaysAgo env.storage =
      Except.ok (startTime, historyC)) :
    fetchHistory env = Except.ok
      { startTime := startTime
        historyC := historyC
        historyFromApi := env.getBrowserHistory startTime env.opts.historyMaxItems
        browserHistory :=
          mergeHistories (env.getBrowserHistory startTime env.opts.historyMaxItems ++ historyC)
        storage :=
          { historyLastFetched := some env.now
            history := StoredHistory.items (mergeHistories
              (env.getBrowserHistory startTime env.opts.historyMaxItems ++ historyC)) } } := by
  simp [fetchHistory, hw]

theorem fetchWindow_differs (now days : Int) (storage : Storage) (s : JsNum)
    (c : List HistoryItem) (hw : fetchWindow now days storage = Except.ok (s, c))
    (hs : s ≠ some (now - msPerDay * days)) :
    storage.historyLastFetched.getD 0 ≠ 0 ∧
    ¬ storage.historyLastFetched.getD 0 < now - msPerDay ∧
    now - msPerDay * days < storage.historyLastFetched.getD 0 ∧
    storage.history = StoredHistory.items c ∧ c ≠ [] := by
  unfold fetchWindow at hw
  simp only at hw
  split at hw
  · rename_i h0
    split at hw
    · injection hw with hw
      exact absurd (congrArg Prod.fst hw).symm hs
    · rename_i hfresh
      split at hw
      · rename_i hwin
        cases hp : storage.history with
        | absent => rw [hp] at hw; cases hw
        | malformed => rw [hp] at hw; cases hw
        | items l =>
          rw [hp] at hw
          simp only [parseStoredHistory] at hw
          injection hw with hw
          have hc : l = c := congrArg Prod.snd hw
          have hsv : lastHistoryItem l (now - msPerDay * days) = s := congrArg Prod.fst hw
          subst hc
          refine ⟨h0, hfresh, hwin, rfl, ?_⟩
          intro hnil
          subst hnil
          exact hs hsv.symm
      · injection hw with hw
        exact absurd (congrArg Prod.fst hw).symm hs
  · injection hw with hw
    exact absurd (congrArg Prod.fst hw).symm hs

theorem fetchesFromWindowStart_of_fetchWindow (env : Env)
    (hw : fetchWindow env.now env.opts.historyDaysAgo env.storage =
      Except.ok (some (env.now - msPerDay * env.opts.historyDaysAgo), [])) :
    FetchesFromWindowStart env :=
  ⟨_, fetchHistory_of_fetchWindow env _ _ hw, rfl, rfl, rfl, by simp⟩

/-- C15 (fresh fetch from the window start). With
`windowStart = now - historyDaysAgo * 24h`: without a prior fetch timestamp
(absent or 0), or with a last-fetch timestamp at or before `windowStart`, the
provider is asked from `windowStart` and no cached record enters the merge; the
same holds in the incremental branch with an empty cached list; and whenever
the start handed to the provider differs from `windowStart`, the call is in the
incremental branch with a non-empty cached list. -/
theorem fresh_fetch_from_window_start (env : Env) :
    (env.storage.historyLastFetched.getD 0 = 0 ∨
        env.storage.historyLastFetched.getD 0 ≤
          env.now - msPerDay * env.opts.historyDaysAgo →
      FetchesFromWindowStart env) ∧
    (env.storage.historyLastFetched.getD 0 ≠ 0 →
      ¬ env.storage.historyLastFetched.getD 0 < env.now - msPerDay →
      env.now - msPerDay * env.opts.historyDaysAgo < env.storage.historyLastFetched.getD 0 →
      env.storage.history = StoredHistory.items [] →
      FetchesFromWindowStart env) ∧
    (∀ f, fetchHistory env = Except.ok f →
      f.startTime ≠ some (env.now - msPerDay * env.opts.historyDaysAgo) →
      env.storage.historyLastFetched.getD 0 ≠ 0 ∧
      ¬ env.storage.historyLastFetched.getD 0 < env.now - msPerDay ∧
      env.now - msPerDay * env.opts.historyDaysAgo < env.storage.historyLastFetched.getD 0 ∧
      env.storage.history = StoredHistory.items f.historyC ∧ f.historyC ≠ []) := by
  refine ⟨?_, ?_, ?_⟩
  · rintro (h | h)
    · exact fetchesFromWindowStart_of_fetchWindow env (fetchWindow_no_timestamp _ _ _ h)
    · exact fetchesFromWindowStart_of_fetchWindow env (fetchWindow_old _ _ _ h)
  · intro h0 hfresh hwin hitems
    apply fetchesFromWindowStart_of_fetchWindow
    simp [fetchWindow, h0, hfresh, hwin, hitems, parseStoredHistory, lastHistoryItem_nil]
  · intro f hf hs
    cases hw : fetchWindow env.now env.opts.historyDaysAgo env.storage with
    | error e => simp [fetchHistory, hw] at hf
    | ok w =>
      obtain ⟨s, c⟩ := w
      rw [fetchHistory_of_fetchWindow env s c hw] at hf
      injection hf with hf
      subst hf
      exact fetchWindow_differs _ _ _ s c hw hs

/-- C15 at the sample environment (no prior fetch) and two hours after a fetch
that left an empty cached list: both ask the provider from the window start. -/
theorem fresh_fetch_from_window_start_witness :
    FetchesFromWindowStart sampleEnv ∧ FetchesFromWindowStart (cachedEnv []) :=
  ⟨(fresh_fetch_from_window_start sampleEnv).1 (Or.inl rfl),
   (fresh_fetch_from_window_start (cachedEnv [])).2.1 (by decide) (by decide) (by decide) rfl⟩

/-! ## The resume point -/

theorem foldl_resume_nan (l : List HistoryItem) :
    l.foldl
      (fun acc item => if jsGt item.lastVisitTime acc then jsSucc item.lastVisitTime else acc)
      none = none := by
  induction l with
  | nil => rfl
  | cons x xs ih =>
    have hx : jsGt x.lastVisitTime none = false := by
      cases x.lastVisitTime <;> rfl
    simp only [List.foldl_cons, hx]
    exact ih

theorem lastHistoryItem_first_unvisited (x : HistoryItem) (rest : List HistoryItem)
    (startTime : Int) (hx : x.lastVisitTime = none) :
    lastHistoryItem (x :: rest) startTime = none := by
  simp only [lastHistoryItem, List.head?_cons, hx, jsSucc, Option.map_none']
  exact foldl_resume_nan (x :: rest)

theorem requestedFrom_incremental (env : Env) (t : Int) (l : List HistoryItem)
    (hlf : env.storage.historyLastFetched = some t) (ht0 : t ≠ 0)
    (hfresh : ¬ t < env.now - msPerDay)
    (hwin : env.now - msPerDay * env.opts.historyDaysAgo < t)
    (hitems : env.storage.history = StoredHistory.items l) :
    requestedFrom env =
      some (lastHistoryItem l (env.now - msPerDay * env.opts.historyDaysAgo)) := by
  have hw := fetchWindow_incremental env.now env.opts.historyDaysAgo t env.storage
    hlf ht0 hfresh hwin
  rw [hitems] at hw
  simp only [parseStoredHistory] at hw
  simp [requestedFrom, fetchHistory_of_fetchWindow env _ _ hw]

/-- C16, amended. In the incremental branch the resume point handed to the
history provider is the window start `now - historyDaysAgo * 24h` when the
cached list has no first record (it is empty); when the first cached record
exists but has no `lastVisitTime`, the value handed to the provider is
`lastVisitTime + 1` on the missing field, which is NaN, whatever the other
cached records are. -/
theorem resume_point_without_lastVisitTime (env : Env) (t : Int)
    (hlf : env.storage.historyLastFetched = some t) (ht0 : t ≠ 0)
    (hfresh : ¬ t < env.now - msPerDay)
    (hwin : env.now - msPerDay * env.opts.historyDaysAgo < t) :
    (env.storage.history = StoredHistory.items [] →
      requestedFrom env = some (some (env.now - msPerDay * env.opts.historyDaysAgo))) ∧
    (∀ x rest, env.storage.history = StoredHistory.items (x :: rest) →
      x.lastVisitTime = none → requestedFrom env = some none) := by
  constructor
  · intro hitems
    rw [requestedFrom_incremental env t [] hlf ht0 hfresh hwin hitems, lastHistoryItem_nil]
  · intro x rest hitems hx
    rw [requestedFrom_incremental env t (x :: rest) hlf ht0 hfresh hwin hitems,
      lastHistoryItem_first_unvisited x rest _ hx]

/-- C16 amended, two hours after a fetch with a window of one day: an empty
cached list resumes from the window start, a cached list whose first record has
no `lastVisitTime` hands NaN to the provider. -/
theorem resume_point_without_lastVisitTime_witness :
    requestedFrom (cachedEnv []) = some (some 1913600000) ∧
    requestedFrom (cachedEnv [unvisitedItem, sampleItem "2" 500 "c"]) = some none :=
  ⟨(resume_point_without_lastVisitTime (cachedEnv []) 1992800000 rfl
      (by decide) (by decide) (by decide)).1 rfl,
   (resume_point_without_lastVisitTime (cachedEnv [unvisitedItem, sampleItem "2" 500 "c"])
      1992800000 rfl (by decide) (by decide) (by decide)).2 _ _ rfl rfl⟩

/-- C16 as stated fails: two hours after a fetch, with a window of one day, a
cached list whose first record has no `lastVisitTime` makes the provider start
at NaN, not at the window start 1913600000. -/
theorem resume_point_without_lastVisitTime_counterexample :
    (cachedEnv [unvisitedItem, sampleItem "2" 500 "c"]).now -
        msPerDay * (cachedEnv [unvisitedItem, sampleItem "2" 500 "c"]).opts.historyDaysAgo =
      1913600000 ∧
    requestedFrom (cachedEnv [unvisitedItem, sampleItem "2" 500 "c"]) = some none ∧
    requestedFrom (cachedEnv [unvisitedItem, sampleItem "2" 500 "c"]) ≠
      some (some 1913600000) := by
  decide

theorem foldl_resume_bounds (l : List HistoryItem)
    (hall : ∀ x ∈ l, ∃ t, x.lastVisitTime = some t) :
    ∀ acc : Int, ∃ r : Int,
      l.foldl
        (fun acc item => if jsGt item.lastVisitTime acc then jsSucc item.lastVisitTime else acc)
        (some acc) = some r ∧
      acc ≤ r ∧
      (∀ x ∈ l, ∀ t, x.lastVisitTime = some t → t ≤ r) ∧
      (r = acc ∨ ∃ x ∈ l, x.lastVisitTime = some (r - 1)) := by
  induction l with
  | nil =>
    intro acc
    exact ⟨acc, rfl, le_refl _, by simp, Or.inl rfl⟩
  | cons x xs ih =>
    intro acc
    obtain ⟨t, ht⟩ := hall x (List.mem_cons_self _ _)
    have hall2 : ∀ y ∈ xs, ∃ t, y.lastVisitTime = some t :=
      fun y hy => hall y (List.mem_cons_of_mem _ hy)
    by_cases hgt : t > acc
    · obtain ⟨r, hr, hle, hmax, hsome⟩ := ih hall2 (t + 1)
      refine ⟨r, ?_, by omega, ?_, ?_⟩
      · simp only [List.foldl_cons, ht, jsGt, jsSucc, hgt, decide_True, if_true,
          Option.map_some']
        exact hr
      · intro y hy ty hty
        rcases List.mem_cons.1 hy with rfl | hy
        · rw [ht] at hty
          injection hty with hty
          omega
        · exact hmax y hy ty hty
      · right
        rcases hsome with rfl | ⟨y, hy, hyr⟩
        · exact ⟨x, List.mem_cons_self _ _, by rw [ht]; congr 1; omega⟩
        · exact ⟨y, List.mem_cons_of_mem _ hy, hyr⟩
    · obtain ⟨r, hr, hle, hmax, hsome⟩ := ih hall2 acc
      refine ⟨r, ?_, hle, ?_, ?_⟩
      · simp only [List.foldl_cons, ht, jsGt, hgt, decide_False, Bool.false_eq_true, if_false]
        exact hr
      · intro y hy ty hty
        rcases List.mem_cons.1 hy with rfl | hy
        · rw [ht] at hty
          injection hty with hty
          omega
        · exact hmax y hy ty hty
      · rcases hsome with rfl | ⟨y, hy, hyr⟩
        · exact Or.inl rfl
        · exact Or.inr ⟨y, List.mem_cons_of_mem _ hy, hyr⟩

/-- C19 (bounds of the resume point). For every non-empty cached list whose
records all have an integer `lastVisitTime`, the resume point computed in the
incremental branch is a number `r` such that no cached record has a
`lastVisitTime` greater than `r`, `r` is the `lastVisitTime + 1` of some cached
record, and hence `M ≤ r ≤ M + 1` for the maximum `M` of the cached
`lastVisitTime` values. -/
theorem resume_point_bounds (historyC : List HistoryItem) (startTime : Int)
    (hne : historyC ≠ [])
    (hall : ∀ x ∈ historyC, ∃ t, x.lastVisitTime = some t) :
    ∃ r : Int, lastHistoryItem historyC startTime = some r ∧
      (∀ x ∈ historyC, ∀ t, x.lastVisitTime = some t → t ≤ r) ∧
      (∃ x ∈ historyC, x.lastVisitTime = some (r - 1)) ∧
      (∀ M : Int, (∃ x ∈ historyC, x.lastVisitTime = some M) →
        (∀ x ∈ historyC, ∀ t, x.lastVisitTime = some t → t ≤ M) → M ≤ r ∧ r ≤ M + 1) := by
  cases historyC with
  | nil => exact absurd rfl hne
  | cons x rest =>
    obtain ⟨t0, ht0⟩ := hall x (List.mem_cons_self _ _)
    obtain ⟨r, hr, hle, hmax, hsome⟩ := foldl_resume_bounds (x :: rest) hall (t0 + 1)
    have hex : ∃ y ∈ x :: rest, y.lastVisitTime = some (r - 1) := by
      rcases hsome with rfl | h
      · exact ⟨x, List.mem_cons_self _ _, by rw [ht0]; congr 1; omega⟩
      · exact h
    refine ⟨r, ?_, hmax, hex, ?_⟩
    · simp only [lastHistoryItem, List.head?_cons, ht0, jsSucc, Option.map_some']
      exact hr
    · intro M ⟨y, hy, hyM⟩ hM
      obtain ⟨z, hz, hzr⟩ := hex
      have h1 := hmax y hy M hyM
      have h2 := hM z hz (r - 1) hzr
      omega

/-- C19 at the cached visit times [499, 500] and [500, 499]: the resume point
is 500 resp. 501, between the maximum 500 and 501. -/
theorem resume_point_bounds_witness :
    lastHistoryItem [sampleItem "1" 499 "c", sampleItem "2" 500 "c"] 0 = some 500 ∧
    lastHistoryItem [sampleItem "1" 500 "c", sampleItem "2" 499 "c"] 0 = some 501 ∧
    ∃ r : Int, lastHistoryItem [sampleItem "1" 499 "c", sampleItem "2" 500 "c"] 0 = some r ∧
      (∀ x ∈ [sampleItem "1" 499 "c", sampleItem "2" 500 "c"],
        ∀ t, x.lastVisitTime = some t → t ≤ r) ∧
      (∃ x ∈ [sampleItem "1" 499 "c", sampleItem "2" 500 "c"],
        x.lastVisitTime = some (r - 1)) ∧
      (∀ M : Int, (∃ x ∈ [sampleItem "1" 499 "c", sampleItem "2" 500 "c"],
          x.lastVisitTime = some M) →
        (∀ x ∈ [sampleItem "1" 499 "c", sampleItem "2" 500 "c"],
          ∀ t, x.lastVisitTime = some t → t ≤ M) → M ≤ r ∧ r ≤ M + 1) :=
  ⟨by decide, by decide,
   resume_point_bounds [sampleItem "1" 499 "c", sampleItem "2" 500 "c"] 0 (by decide)
    (by
      intro x hx
      simp only [List.mem_cons, List.mem_singleton, List.not_mem_nil, or_false] at hx
      rcases hx with rfl | rfl
      · exact ⟨499, rfl⟩
      · exact ⟨500, rfl⟩)⟩

/-! ## Shape of the merged bookmarks and tabs -/

theorem shape_mergeOne (hm : List (String × Record)) (el : Record) (i : Nat) :
    KeepsFields (withIndex (mergeOne hm el) i) el ∧
    (lookupUrl hm el.originalUrl = none →
      SameUpToIndex (withIndex (mergeOne hm el) i) el) := by
  refine ⟨⟨by simp [withIndex, originalUrl_mergeOne], ?_⟩, ?_⟩
  · intro name hn v hv
    rw [get_withIndex_of_ne _ _ _ hn]
    unfold mergeOne
    cases lookupUrl hm el.originalUrl with
    | none => exact hv
    | some h => simp only [get_spread, hv, overlay]
  · intro hnone name hn
    rw [get_withIndex_of_ne _ _ _ hn]
    simp only [mergeOne, hnone]

theorem shape_merged (history els : List Record) :
    (addIndex (els.map (mergeOne (historyMap history)))).length = els.length ∧
    ∀ (i : Nat) (el : Record), els[i]? = some el →
      ∃ r, (addIndex (els.map (mergeOne (historyMap history))))[i]? = some r ∧
        KeepsFields r el ∧
        ((∀ h ∈ history, h.originalUrl ≠ el.originalUrl) → SameUpToIndex r el) := by
  refine ⟨by simp [length_addIndex], ?_⟩
  intro i el hel
  refine ⟨withIndex (mergeOne (historyMap history) el) i, by simp [getElem?_merged, hel],
    (shape_mergeOne _ el i).1, ?_⟩
  intro hno
  exact (shape_mergeOne _ el i).2 (lookupUrl_historyMap_none history el.originalUrl hno)

/-- C20 (the merge preserves the shape of bookmarks and tabs). The output
`bookmarks` and `tabs` have the lengths of the inputs; the record at each
position keeps the `originalUrl` and every other field of the input record at
that position, apart from `index`; and a bookmark or tab whose `originalUrl`
matches no history record comes back with no field added or changed other than
`index`. -/
theorem merge_preserves_shape (tabs bookmarks history : List Record) :
    ((mergeAndIndex tabs bookmarks history).bookmarks.length = bookmarks.length ∧
      ∀ (i : Nat) (el : Record), bookmarks[i]? = some el →
        ∃ r, (mergeAndIndex tabs bookmarks history).bookmarks[i]? = some r ∧
          KeepsFields r el ∧
          ((∀ h ∈ history, h.originalUrl ≠ el.originalUrl) → SameUpToIndex r el)) ∧
    ((mergeAndIndex tabs bookmarks history).tabs.length = tabs.length ∧
      ∀ (i : Nat) (el : Record), tabs[i]? = some el →
        ∃ r, (mergeAndIndex tabs bookmarks history).tabs[i]? = some r ∧
          KeepsFields r el ∧
          ((∀ h ∈ history, h.originalUrl ≠ el.originalUrl) → SameUpToIndex r el)) :=
  ⟨shape_merged history bookmarks, shape_merged history tabs⟩

/-- C20 at a bookmark `a` that matches the history record `a` and a tab `x`
that matches none. -/
theorem merge_preserves_shape_witness :
    (∃ r, (mergeAndIndex [⟨"x", [("title", Val.str "X")]⟩] [bookmarkA] [historyA]).bookmarks[0]?
        = some r ∧ KeepsFields r bookmarkA) ∧
    (∃ r, (mergeAndIndex [⟨"x", [("title", Val.str "X")]⟩] [bookmarkA] [historyA]).tabs[0]?
        = some r ∧ SameUpToIndex r ⟨"x", [("title", Val.str "X")]⟩) := by
  obtain ⟨⟨_, hb⟩, ⟨_, ht⟩⟩ :=
    merge_preserves_shape [⟨"x", [("title", Val.str "X")]⟩] [bookmarkA] [historyA]
  obtain ⟨r, hr, hk, _⟩ := hb 0 bookmarkA rfl
  obtain ⟨r2, hr2, _, hs⟩ := ht 0 ⟨"x", [("title", Val.str "X")]⟩ rfl
  exact ⟨⟨r, hr, hk⟩, ⟨r2, hr2, hs (by decide)⟩⟩

/-! ## Compaction of the history -/

theorem matchedAt_iff_drop (history : List Record) (url : String) (p : Nat) (h : Record) :
    MatchedAt history url p h ↔
      history[p]? = some h ∧ h.originalUrl = url ∧
        ∀ y ∈ history.drop (p + 1), y.originalUrl ≠ url := by
  constructor
  · rintro ⟨hp, hu, hlast⟩
    refine ⟨hp, hu, ?_⟩
    intro y hy
    obtain ⟨k, hk⟩ := List.mem_iff_getElem?.1 hy
    rw [List.getElem?_drop] at hk
    exact hlast (p + 1 + k) y (by omega) hk
  · rintro ⟨hp, hu, hlast⟩
    refine ⟨hp, hu, ?_⟩
    intro q h2 hq hget
    apply hlast h2
    apply List.mem_iff_getElem?.2
    refine ⟨q - (p + 1), ?_⟩
    rw [List.getElem?_drop]
    have : p + 1 + (q - (p + 1)) = q := by omega
    rw [this]; exact hget

theorem isMatchedPosition_iff (history els : List Record) (p : Nat) :
    isMatchedPosition history els p = true ↔
      ∃ h, ∃ el ∈ els, MatchedAt history el.originalUrl p h := by
  unfold isMatchedPosition
  constructor
  · intro hm
    cases hp : history[p]? with
    | none => rw [hp] at hm; cases hm
    | some h =>
      rw [hp] at hm
      simp only [Bool.and_eq_true, decide_eq_true_eq, List.all_eq_true, ne_eq] at hm
      obtain ⟨hmem, hlast⟩ := hm
      obtain ⟨el, hel, helu⟩ := List.mem_map.1 hmem
      refine ⟨h, el, hel, (matchedAt_iff_drop _ _ _ _).2 ⟨hp, helu.symm, ?_⟩⟩
      intro y hy
      rw [helu]
      exact hlast y hy
  · rintro ⟨h, el, hel, hmat⟩
    obtain ⟨hp, hu, hlast⟩ := (matchedAt_iff_drop _ _ _ _).1 hmat
    rw [hp]
    simp only [Bool.and_eq_true, decide_eq_true_eq, List.all_eq_true, ne_eq]
    refine ⟨List.mem_map.2 ⟨el, hel, hu.symm⟩, ?_⟩
    intro y hy
    rw [hu]
    exact hlast y hy

theorem pushed_matched (tabs bookmarks history : List Record) (v : Option Val)
    (hv : v ∈ pushed (historyMap history) bookmarks ++ pushed (historyMap history) tabs) :
    ∃ p : Nat, v = some (Val.num (p : Int)) ∧ p < history.length ∧
      isMatchedPosition history (bookmarks ++ tabs) p = true := by
  have hex : ∃ el ∈ bookmarks ++ tabs, ∃ h,
      lookupUrl (historyMap history) el.originalUrl = some h ∧ h.get "index" = v := by
    rcases List.mem_append.1 hv with hb | ht
    · obtain ⟨el, hel, h, hl, hi⟩ := (mem_pushed _ _ _).1 hb
      exact ⟨el, List.mem_append_left _ hel, h, hl, hi⟩
    · obtain ⟨el, hel, h, hl, hi⟩ := (mem_pushed _ _ _).1 ht
      exact ⟨el, List.mem_append_right _ hel, h, hl, hi⟩
  obtain ⟨el, hel, h, hl, hi⟩ := hex
  obtain ⟨p, h0, hmat, rfl⟩ := lookupUrl_historyMap_some history el.originalUrl h hl
  rw [get_withIndex] at hi
  refine ⟨p, hi.symm, ?_, (isMatchedPosition_iff _ _ _).2 ⟨h0, el, hel, hmat⟩⟩
  obtain ⟨hlt, _⟩ := List.getElem?_eq_some.1 hmat.1
  exact hlt

theorem matched_iff_pushed (tabs bookmarks history : List Record) (p : Nat) :
    some (Val.num (p : Int)) ∈
        pushed (historyMap history) bookmarks ++ pushed (historyMap history) tabs ↔
      p ∈ matchedPositions history (bookmarks ++ tabs) := by
  unfold matchedPositions
  rw [List.mem_filter, List.mem_range]
  constructor
  · intro hv
    obtain ⟨q, hq, hlt, hm⟩ := pushed_matched tabs bookmarks history _ hv
    have hpq : p = q := by
      injection hq with hq
      injection hq with hq
      exact Int.ofNat.inj hq
    subst hpq
    exact ⟨hlt, hm⟩
  · rintro ⟨_, hm⟩
    obtain ⟨h, el, hel, hmat⟩ := (isMatchedPosition_iff _ _ _).1 hm
    exact matched_position_pushed tabs bookmarks history el hel p h hmat

theorem removeMerged_eq_deletePositions (tabs bookmarks history : List Record) :
    removeMerged history
        (pushed (historyMap history) bookmarks ++ pushed (historyMap history) tabs) =
      deletePositions history (matchedPositions history (bookmarks ++ tabs)) := by
  unfold removeMerged deletePositions
  congr 1
  apply List.filter_congr
  intro x _
  simp only [matched_iff_pushed tabs bookmarks history x.1]

theorem sameUpToIndex_addIndex (l : List Record) :
    List.Forall₂ SameUpToIndex (addIndex l) l := by
  rw [List.forall₂_iff_get]
  refine ⟨length_addIndex l, ?_⟩
  intro i h1 h2
  have hget : (addIndex l)[i]? = some (withIndex (l.get ⟨i, h2⟩) i) := by
    rw [getElem?_addIndex, List.getElem?_eq_getElem h2]
    rfl
  have heq : (addIndex l).get ⟨i, h1⟩ = withIndex (l.get ⟨i, h2⟩) i := by
    have := List.getElem?_eq_getElem h1
    rw [hget] at this
    exact (Option.some.inj this).symm
  rw [heq]
  intro name hn
  exact get_withIndex_of_ne _ _ _ hn

theorem length_deletePositions (history els : List Record) :
    (deletePositions history (matchedPositions history els)).length +
      (matchedPositions history els).length = history.length := by
  have h1 : deletePositions history (matchedPositions history els) =
      (history.enum.filter
        ((fun i => !isMatchedPosition history els i) ∘ Prod.fst)).map Prod.snd := by
    unfold deletePositions
    congr 1
    apply List.filter_congr
    intro x hx
    have hlt : x.1 < history.length := List.fst_lt_of_mem_enum hx
    simp [matchedPositions, List.mem_filter, List.mem_range, hlt]
  have h2 : ((history.enum.filter
        ((fun i => !isMatchedPosition history els i) ∘ Prod.fst)).map Prod.fst) =
      (List.range history.length).filter (fun i => !isMatchedPosition history els i) := by
    rw [← List.filter_map, List.enum_map_fst]
  have h3 : (deletePositions history (matchedPositions history els)).length =
      ((List.range history.length).filter
        (fun i => !isMatchedPosition history els i)).length := by
    rw [h1, List.length_map, ← h2, List.length_map]
  rw [h3]
  have h4 := List.length_eq_length_filter_add (l := List.range history.length)
    (isMatchedPosition history els)
  simp only [List.length_range] at h4
  unfold matchedPositions
  omega

/-- C14 (history compaction). The output `history`, the `index` field apart,
is the input history with exactly the matched positions deleted (the last
position of a URL carried by some bookmark or tab), the other records in their
order. Every value pushed on `historyToDelete` is a valid position of the
history and a matched one, every matched position is pushed, and since the
matched positions are listed without repetition the output length is the input
length minus their number, however often a position was pushed. -/
theorem history_compaction (tabs bookmarks history : List Record) :
    List.Forall₂ SameUpToIndex (mergeAndIndex tabs bookmarks history).history
      (deletePositions history (matchedPositions history (bookmarks ++ tabs))) ∧
    (deletePositions history (matchedPositions history (bookmarks ++ tabs))).Sublist history ∧
    (∀ v ∈ pushed (historyMap history) bookmarks ++ pushed (historyMap history) tabs,
      ∃ p : Nat, v = some (Val.num (p : Int)) ∧ p < history.length ∧
        p ∈ matchedPositions history (bookmarks ++ tabs)) ∧
    (∀ p ∈ matchedPositions history (bookmarks ++ tabs),
      some (Val.num (p : Int)) ∈
        pushed (historyMap history) bookmarks ++ pushed (historyMap history) tabs) ∧
    (matchedPositions history (bookmarks ++ tabs)).Nodup ∧
    (mergeAndIndex tabs bookmarks history).history.length +
      (matchedPositions history (bookmarks ++ tabs)).length = history.length := by
  have hrm := removeMerged_eq_deletePositions tabs bookmarks history
  refine ⟨?_, ?_, ?_, ?_, ?_, ?_⟩
  · simp only [mergeAndIndex, hrm]
    exact sameUpToIndex_addIndex _
  · rw [← hrm]
    exact removeMerged_sublist _ _
  · intro v hv
    obtain ⟨p, hp, hlt, hm⟩ := pushed_matched tabs bookmarks history v hv
    refine ⟨p, hp, hlt, ?_⟩
    unfold matchedPositions
    exact List.mem_filter.2 ⟨List.mem_range.2 hlt, hm⟩
  · intro p hp
    exact (matched_iff_pushed tabs bookmarks history p).2 hp
  · exact List.Nodup.filter _ (List.nodup_range _)
  · simp only [mergeAndIndex, hrm, length_addIndex]
    exact length_deletePositions history (bookmarks ++ tabs)

/-- C14 at a bookmark and a tab that both carry the URL of the second of three
history records: position 1 is pushed twice and deleted once, the records at
positions 0 and 2 remain in this order. -/
theorem history_compaction_witness :
    pushed (historyMap [⟨"x", []⟩, historyA, ⟨"y", []⟩]) [bookmarkA] ++
        pushed (historyMap [⟨"x", []⟩, historyA, ⟨"y", []⟩]) [tabA] =
      [some (Val.num 1), some (Val.num 1)] ∧
    matchedPositions [⟨"x", []⟩, historyA, ⟨"y", []⟩] ([bookmarkA] ++ [tabA]) = [1] ∧
    urls (mergeAndIndex [tabA] [bookmarkA] [⟨"x", []⟩, historyA, ⟨"y", []⟩]).history =
      ["x", "y"] ∧
    (mergeAndIndex [tabA] [bookmarkA] [⟨"x", []⟩, historyA, ⟨"y", []⟩]).history.length +
      (matchedPositions [⟨"x", []⟩, historyA, ⟨"y", []⟩] ([bookmarkA] ++ [tabA])).length = 3 :=
  ⟨by decide, by decide, by decide,
   (history_compaction [tabA] [bookmarkA] [⟨"x", []⟩, historyA, ⟨"y", []⟩]).2.2.2.2.2⟩

end SearchDataModel
